import Mathlib

/-!
Verification of the `legacy_populate` content resolution and population
pipeline (`legacy_populate/main.py`, with the XML helpers of
`legacy_populate/parsers.py` treated as external collaborators).

Modelling choices, all from the source:

* The sqlite resolver cache (table `modules_cache (url TEXT PRIMARY KEY,
  document TEXT)`) is an association list `Cache := List (String × String)`.
  `_retrieve_document` is a first-match lookup, `_cache_document` is a plain
  `INSERT` that fails with an integrity error when the key is already
  present, `_invalidate_document` is an unconditional `DELETE`.
* The remote host (`requests.get`), the lxml/etree based extraction helpers
  (`parse_module_xml` / `parse_collection_xml`, the version-history xpath
  scrape, `parse_collection_xml_contents`), the response `content-type`
  header, the `eval`-decoded `objectIds` listing, and the md5 hex digest are
  deterministic functions packaged in an `Env` record: they are out-of-scope
  collaborators that the python code only calls.
* The PostgreSQL store is a `DB` record of table rows in insertion order;
  `RETURNING`-generated serial identities come from one `nextId` counter.
  A `psycopg2` connection block commits on success and rolls back on an
  exception, so a failing insert transaction returns an error and the caller
  keeps the unchanged `DB`.
* Python generators are consumed eagerly by their only consumers; they are
  modelled as functions returning the list of yielded elements together with
  an optional terminating error (fail-fast: nothing after the failure).
* `str.startswith` (always used with a one-character prefix) is modelled as
  a first-character test, and `str.strip` as whitespace trimming on the
  character list, both executable in the kernel.
* The unbounded Python recursion `Populator.__call__` → itself is given a
  `fuel` parameter; exhausting it is the `RecursionError` of the source.
-/

/-- `MODULE = 'Module'` from main.py. -/
def MODULE : String := "Module"

/-- `COLLECTION = 'Collection'` from main.py. -/
def COLLECTION : String := "Collection"

/-- Error outcomes of the pipeline: invalid identifier (`ValueError` in
`id_to_type`), sqlite uniqueness violation, extraction failure (any parser
exception), `fetchone()[0]` on an empty result (`TypeError`), dictionary
`KeyError`, other `ValueError`s, missing referential data, and hitting the
interpreter recursion limit. -/
inductive Err
  | invalidId (id : String)
  | integrity
  | extraction (msg : String)
  | noneType
  | keyError (key : String)
  | valueErr (msg : String)
  | unknownTag
  | recursionLimit
deriving Repr, DecidableEq

/-- Decidable equality for `Except` results, used by the executable
scenario checks. -/
instance {e a : Type} [DecidableEq e] [DecidableEq a] :
    DecidableEq (Except e a) := fun x y =>
  match x, y with
  | .error u, .error v =>
    if h : u = v then .isTrue (by rw [h]) else .isFalse (by intro hc; cases hc; exact h rfl)
  | .ok u, .ok v =>
    if h : u = v then .isTrue (by rw [h]) else .isFalse (by intro hc; cases hc; exact h rfl)
  | .error _, .ok _ => .isFalse (by intro hc; cases hc)
  | .ok _, .error _ => .isFalse (by intro hc; cases hc)

/-- Models `id.startswith(p)` for the one-character prefixes used in
main.py: the first character of the string equals the given character. -/
def startsWithChar (s : String) (ch : Char) : Bool :=
  s.data.head? == some ch

/-- Whitespace test for the model of `str.strip()`. -/
def isPyWS (ch : Char) : Bool :=
  ch == ' ' || ch == '\n' || ch == '\t' || ch == '\r'

/-- Models python `str.strip()`: drop leading and trailing whitespace. -/
def pyStrip (s : String) : String :=
  String.mk (((s.data.dropWhile isPyWS).reverse.dropWhile isPyWS).reverse)

/-- `id_to_type` from main.py: `m…` is a Module, `c…` a Collection, anything
else raises `ValueError`. -/
def id_to_type (id : String) : Except Err String :=
  if startsWithChar id 'm' then .ok MODULE
  else if startsWithChar id 'c' then .ok COLLECTION
  else .error (.invalidId id)

/-- `TYPES_TO_FILENAMES` dictionary lookup (`type_to_filename`); a key other
than the two portal types raises `KeyError`. -/
def type_to_filename (ty : String) : Except Err String :=
  if ty = MODULE then .ok "index.cnxml"
  else if ty = COLLECTION then .ok "collection.xml"
  else .error (.keyError ty)

/-- The fixed-shape metadata mapping produced by
`parsers._parse_common_elements` plus the `portal_type` tag added by
`parse_module_xml` / `parse_collection_xml`. -/
structure Metadata where
  moduleid : String
  version : String
  name : String
  created : String
  revised : String
  doctype : String
  submitter : String
  submitlog : String
  language : String
  authors : List String
  maintainers : List String
  licensors : List String
  portal_type : String
deriving Repr, DecidableEq

/-- Result of `parse_to_metadata`: the dict with keys
`abstract, license_url, metadata, keywords, subjects`. -/
structure ModuleData where
  abstract : String
  license_url : String
  metadata : Metadata
  keywords : List String
  subjects : List String
deriving Repr, DecidableEq

/-- A row of the `modules` table: the metadata dict items plus the
`abstractid` and `licenseid` set by `Populator.insert_module`, and the
generated `module_ident`. -/
structure ModuleRow where
  module_ident : Nat
  md : Metadata
  abstractid : Nat
  licenseid : Nat
deriving Repr, DecidableEq

/-- A row of the `files` table: generated `fileid`, md5 hex digest, payload. -/
structure FileRow where
  fileid : Nat
  md5 : String
  file : String
deriving Repr, DecidableEq

/-- A row of the `module_files` association table. -/
structure FileAssoc where
  module_ident : Nat
  fileid : Nat
  filename : String
  mimetype : String
deriving Repr, DecidableEq

/-- The relational store, tables in row-insertion order. `nextId` generates
the serial identities returned by the `RETURNING` clauses. -/
structure DB where
  abstracts : List (Nat × String)
  licenses : List (Nat × String)
  modules : List ModuleRow
  files : List FileRow
  module_files : List FileAssoc
  tags : List (Nat × String)
  moduletags : List (Nat × Nat)
  keywordRows : List (Nat × String)
  modulekeywords : List (Nat × Nat)
  nextId : Nat
deriving Repr, DecidableEq

/-- The resolver cache: `url TEXT PRIMARY KEY, document TEXT`. -/
abbrev Cache : Type := List (String × String)

/-- `Resolver._retrieve_document`: `SELECT document FROM modules_cache WHERE
url = ?` with `fetchone()`; no row means `None`. -/
def retrieveDocument (c : Cache) (url : String) : Option String :=
  (c.find? (fun e => e.1 == url)).map (fun e => e.2)

/-- `Resolver._cache_document`: `INSERT INTO modules_cache (url, document)
VALUES (?, ?)`; inserting an existing primary key raises an integrity
error. -/
def cacheDocument (c : Cache) (url doc : String) : Except Err Cache :=
  if (c.find? (fun e => e.1 == url)).isSome then .error .integrity
  else .ok (c ++ [(url, doc)])

/-- `Resolver._invalidate_document`: `DELETE FROM modules_cache WHERE
url = ?`. -/
def invalidateDocument (c : Cache) (url : String) : Cache :=
  c.filter (fun e => e.1 != url)

/-- The external collaborators: the remote host and the XML helpers, all
deterministic. `getBody` is `requests.get(url).content` decoded as utf-8,
`contentType` the response `content-type` header, `objectIds` the
`eval`-decoded resource listing of an `/objectIds` url, `parseVersionHistory`
the `lxml.html` parse plus `cnx_history_section` xpath of `get_versions`
(labels in the host's native descending order), `parseMeta` the
`TYPES_TO_PARSERS[type]` parser wrapped by `parse_to_metadata`,
`parseContents` is `parsers.parse_collection_xml_contents`, and `md5hex`
the md5 hex digest used by `_insert_module_file`. -/
structure Env where
  host : String
  getBody : String → String
  contentType : String → String
  objectIds : String → List String
  parseVersionHistory : String → Except String (List String)
  parseMeta : String → String → Except String ModuleData
  parseContents : String → Except String (List String)
  md5hex : String → String

/-- `Resolver.to_url`. -/
def to_url (host mid version : String) : String :=
  "http://" ++ host ++ "/content/" ++ mid ++ "/" ++ version

/-- `Resolver.to_source_url`. -/
def to_source_url (host mid version : String) : String :=
  to_url host mid version ++ "/source"

/-- The url requested by `Resolver.get_latest_version`
(`to_url` defaults its version to `latest`). -/
def get_latest_version_req (env : Env) (mid : String) : String :=
  to_url env.host mid "latest" ++ "/getVersion"

/-- `Resolver.get_latest_version`: one live GET, `resp.text.strip()`. -/
def get_latest_version (env : Env) (mid : String) : String :=
  pyStrip (env.getBody (get_latest_version_req env mid))

/-- `parse_to_metadata(id_to_type(mid), document)` as evaluated inside the
`try` of `Resolver.__call__`: the `ValueError` of `id_to_type` and any
parser exception both escape from this expression. -/
def parse_to_metadata (env : Env) (mid doc : String) : Except Err ModuleData :=
  match id_to_type mid with
  | .error e => .error e
  | .ok ty =>
    match env.parseMeta ty doc with
    | .error e => .error (.extraction e)
    | .ok md => .ok md

/-- `metadata['metadata']['version'] = version` from `Resolver.__call__`. -/
def setVersion (md : ModuleData) (v : String) : ModuleData :=
  { md with metadata := { md.metadata with version := v } }

/-- Output of one resolver interaction: the produced value or the raised
exception, the cache state, and the list of urls requested from the remote
host. -/
structure StepOut (α : Type) where
  val : Except Err α
  cache : Cache
  reqs : List String

/-- The source url used by one iteration of `Resolver.__call__`: for a
Collection the source is always fetched at the latest version (the cnx.org
workaround), otherwise at the requested version. -/
def sourceUrlOf (env : Env) (mid v : String) : String :=
  to_source_url env.host mid
    (if startsWithChar mid 'c' then get_latest_version env mid else v)

/-- Tail of one `Resolver.__call__` iteration once the document is in hand:
`parse_to_metadata` inside `try` (on failure invalidate the url and
re-raise), then overwrite the metadata version with the requested version
and yield `(metadata, document)`. -/
def finishResolve (env : Env) (c : Cache) (mid v url doc : String)
    (pre : List String) : StepOut (ModuleData × String) :=
  match parse_to_metadata env mid doc with
  | .error e => ⟨.error e, invalidateDocument c url, pre⟩
  | .ok md => ⟨.ok (setVersion md v, doc), c, pre⟩

/-- One iteration of the `Resolver.__call__` generator for version `v`:
compute the source url (Collection special case, which performs the live
`getVersion` request), consult the cache when enabled (when disabled, delete
the entry instead), on a miss fetch from the host and store into the cache,
then extract and fix up the metadata. -/
def resolveStep (env : Env) (en : Bool) (c : Cache) (mid v : String) :
    StepOut (ModuleData × String) :=
  let pre : List String :=
    if startsWithChar mid 'c' then [get_latest_version_req env mid] else []
  let url := sourceUrlOf env mid v
  let dc : Option String × Cache :=
    if en then (retrieveDocument c url, c) else (none, invalidateDocument c url)
  match dc.1 with
  | some doc => finishResolve env dc.2 mid v url doc pre
  | none =>
    let doc := env.getBody url
    match cacheDocument dc.2 url doc with
    | .error e => ⟨.error e, dc.2, pre ++ [url]⟩
    | .ok c2 => finishResolve env c2 mid v url doc (pre ++ [url])

/-- Full consumption of the `Resolver.__call__` generator: yielded
elements, the terminating exception if any (fail-fast), cache, requests. -/
structure GenOut where
  yielded : List (ModuleData × String)
  error? : Option Err
  cache : Cache
  reqs : List String

/-- The version loop of `Resolver.__call__` over an already computed
version list. -/
def resolveLoop (env : Env) (en : Bool) (mid : String) :
    List String → Cache → GenOut
  | [], c => ⟨[], none, c, []⟩
  | v :: vs, c =>
    let s := resolveStep env en c mid v
    match s.val with
    | .error e => ⟨[], some e, s.cache, s.reqs⟩
    | .ok p =>
      let r := resolveLoop env en mid vs s.cache
      ⟨p :: r.yielded, r.error?, r.cache, s.reqs ++ r.reqs⟩

/-- Tail of `Resolver.get_versions` once the history page is in hand: the
`lxml.html` parse inside `try` (on failure invalidate the url and
re-raise), then the xpath scrape and the in-place reverse of the labels. -/
def finishVersions (env : Env) (c : Cache) (url doc : String)
    (pre : List String) : StepOut (List String) :=
  match env.parseVersionHistory doc with
  | .error e => ⟨.error (.extraction e), invalidateDocument c url, pre⟩
  | .ok vs => ⟨.ok vs.reverse, c, pre⟩

/-- The history url used by `Resolver.get_versions`: keyed by the literal
`latest` for `m…` identifiers (the cnx.org workaround of the source) and by
the live `get_latest_version` call otherwise. -/
def historyUrlOf (env : Env) (mid : String) : String :=
  to_url env.host mid
    (if startsWithChar mid 'm' then "latest" else get_latest_version env mid)
    ++ "/content_info"

/-- `Resolver.get_versions`: for `m…` identifiers the history page is keyed
by the literal `'latest'` (the cnx.org workaround of the source), otherwise
by the live `get_latest_version` result; the page goes through the cache
(or, cache disabled, is deleted, refetched and rewritten), the parse failure
invalidates and re-raises, and the scraped labels are reversed. -/
def get_versions (env : Env) (en : Bool) (c : Cache) (mid : String) :
    StepOut (List String) :=
  let pre : List String :=
    if startsWithChar mid 'm' then [] else [get_latest_version_req env mid]
  let url := historyUrlOf env mid
  let dc : Option String × Cache :=
    if en then (retrieveDocument c url, c) else (none, invalidateDocument c url)
  match dc.1 with
  | some doc => finishVersions env dc.2 url doc pre
  | none =>
    let doc := env.getBody url
    match cacheDocument dc.2 url doc with
    | .error e => ⟨.error e, dc.2, pre ++ [url]⟩
    | .ok c2 => finishVersions env c2 url doc (pre ++ [url])

/-- `Resolver.__call__` consumed to the end: `get_versions` then the
version loop. -/
def resolveAll (env : Env) (en : Bool) (c : Cache) (mid : String) : GenOut :=
  let g := get_versions env en c mid
  match g.val with
  | .error e => ⟨[], some e, g.cache, g.reqs⟩
  | .ok vs =>
    let r := resolveLoop env en mid vs g.cache
    ⟨r.yielded, r.error?, r.cache, g.reqs ++ r.reqs⟩

/-- `_insert_abstract`: `INSERT INTO abstracts … RETURNING abstractid`. -/
def _insert_abstract (text : String) (db : DB) : Nat × DB :=
  (db.nextId,
   { db with abstracts := db.abstracts ++ [(db.nextId, text)],
             nextId := db.nextId + 1 })

/-- `_find_license_id_by_url`: `SELECT licenseid FROM licenses WHERE
url = %s`; `fetchone()[0]` raises `TypeError` when there is no row. -/
def _find_license_id_by_url (url : String) (db : DB) : Except Err Nat :=
  match db.licenses.find? (fun e => e.2 == url) with
  | some e => .ok e.1
  | none => .error .noneType

/-- `_insert_module`: insert the metadata items (which by the time of the
call include `abstractid` and `licenseid`) and return the generated
`module_ident` together with the stored `portal_type`. -/
def _insert_module (md : Metadata) (abstractid licenseid : Nat) (db : DB) :
    (Nat × String) × DB :=
  ((db.nextId, md.portal_type),
   { db with modules := db.modules ++ [⟨db.nextId, md, abstractid, licenseid⟩],
             nextId := db.nextId + 1 })

/-- `_insert_module_file`: compute the md5 of the payload first, reuse an
existing `files` row with the same digest, otherwise insert a new one; in
both cases insert a fresh `module_files` association row. -/
def _insert_module_file (md5hex : String → String) (module_id : Nat)
    (filename mimetype file : String) (db : DB) : Nat × DB :=
  let h := md5hex file
  match db.files.find? (fun f => f.md5 == h) with
  | some f =>
    (f.fileid,
     { db with module_files :=
         db.module_files ++ [⟨module_id, f.fileid, filename, mimetype⟩] })
  | none =>
    (db.nextId,
     { db with files := db.files ++ [⟨db.nextId, h, file⟩],
               module_files :=
                 db.module_files ++ [⟨module_id, db.nextId, filename, mimetype⟩],
               nextId := db.nextId + 1 })

/-- `_insert_subject_for_module`: the tag must be pre-seeded in `tags`;
otherwise the scalar subquery yields no tag identity and the insert
fails. -/
def _insert_subject_for_module (subject : String) (module_id : Nat)
    (db : DB) : Except Err DB :=
  match db.tags.find? (fun e => e.2 == subject) with
  | some t => .ok { db with moduletags := db.moduletags ++ [(module_id, t.1)] }
  | none => .error .unknownTag

/-- `_insert_keyword_for_module`: look the keyword up by exact text, insert
a new keyword row only on miss, then insert the association row. -/
def _insert_keyword_for_module (kw : String) (module_id : Nat) (db : DB) : DB :=
  match db.keywordRows.find? (fun e => e.2 == kw) with
  | some k =>
    { db with modulekeywords := db.modulekeywords ++ [(module_id, k.1)] }
  | none =>
    { db with keywordRows := db.keywordRows ++ [(db.nextId, kw)],
              modulekeywords := db.modulekeywords ++ [(module_id, db.nextId)],
              nextId := db.nextId + 1 }

/-- The subject loop of `Populator.insert_module`. -/
def insertSubjects (subjects : List String) (module_id : Nat) (db : DB) :
    Except Err DB :=
  match subjects with
  | [] => .ok db
  | s :: rest =>
    match _insert_subject_for_module s module_id db with
    | .error e => .error e
    | .ok db1 => insertSubjects rest module_id db1

/-- The keyword loop of `Populator.insert_module`. -/
def insertKeywords (keywords : List String) (module_id : Nat) (db : DB) : DB :=
  match keywords with
  | [] => db
  | k :: rest => insertKeywords rest module_id (_insert_keyword_for_module k module_id db)

/-- `Populator.insert_module`: one connection block = one transaction;
abstract, license lookup, metadata row, primary file under the canonical
filename with MIME `text/xml`, subjects, keywords.  An error aborts the
transaction, so the caller keeps the previous `DB`. -/
def insert_module (env : Env) (mdata : ModuleData) (document : String)
    (db : DB) : Except Err ((Nat × String) × DB) :=
  let a := _insert_abstract mdata.abstract db
  match _find_license_id_by_url mdata.license_url a.2 with
  | .error e => .error e
  | .ok license_id =>
    let m := _insert_module mdata.metadata a.1 license_id a.2
    match type_to_filename m.1.2 with
    | .error e => .error e
    | .ok fn =>
      let f := _insert_module_file env.md5hex m.1.1 fn "text/xml" document m.2
      match insertSubjects mdata.subjects m.1.1 f.2 with
      | .error e => .error e
      | .ok db4 => .ok (m.1, insertKeywords mdata.keywords m.1.1 db4)

/-- `Populator.get_module_ident_from_metadata`: `SELECT module_ident FROM
modules WHERE moduleid = %s AND version = %s`; absent row gives `None`. -/
def get_module_ident_from_metadata (md : Metadata) (db : DB) : Option Nat :=
  (db.modules.find? (fun r => r.md.moduleid == md.moduleid && r.md.version == md.version)).map
    (fun r => r.module_ident)

/-- `Populator.get_module_type_from_ident`; absent row raises
`ValueError`. -/
def get_module_type_from_ident (ident : Nat) (db : DB) : Except Err String :=
  match db.modules.find? (fun r => r.module_ident == ident) with
  | some r => .ok r.md.portal_type
  | none => .error (.valueErr "module does not exist")

/-- `Populator._get_module_version`; absent row makes `fetchone()[0]`
raise `TypeError`. -/
def _get_module_version (ident : Nat) (db : DB) : Except Err String :=
  match db.modules.find? (fun r => r.module_ident == ident) with
  | some r => .ok r.md.version
  | none => .error .noneType

/-- `Populator._get_module_contents`: first `module_files` row of the ident
joined to its `files` payload, parsed by `parse_collection_xml_contents`. -/
def _get_module_contents (env : Env) (ident : Nat) (db : DB) :
    Except Err (List String) :=
  match db.module_files.find? (fun a => a.module_ident == ident) with
  | none => .error .noneType
  | some a =>
    match db.files.find? (fun f => f.fileid == a.fileid) with
    | none => .error .noneType
    | some f =>
      match env.parseContents f.file with
      | .error e => .error (.extraction e)
      | .ok mids => .ok mids

/-- The probe generated by `Populator._generate_resource_callback`:
`SELECT 'T'::bool FROM module_files WHERE module_ident = %s AND
filename = %s` is non-empty. -/
def hasFileAssoc (db : DB) (ident : Nat) (filename : String) : Bool :=
  db.module_files.any (fun a => a.module_ident == ident && a.filename == filename)

/-- `resources.pop(resources.index('index.cnxml'))`: remove the first
occurrence; a missing element raises `ValueError`. -/
def removeFirst : List String → String → Option (List String)
  | [], _ => none
  | x :: xs, y =>
    if x == y then some xs
    else
      match removeFirst xs y with
      | none => none
      | some r => some (x :: r)

/-- Result of the module resource phase: the store after the inserts and
the `report_activity` lines printed for the inserted resources. -/
structure ResOut where
  db : DB
  reports : List (String × String)
deriving Repr

/-- The interleaved consumption of the `get_module_resources` generator by
`Populator.__call__`: for each remaining filename probe the live store; if
the association exists skip it, otherwise fetch the resource (bytes and
`content-type`), insert it via `_insert_module_file`, and report. -/
def resourceLoop (env : Env) (ident : Nat) (base : String) :
    List String → DB → ResOut
  | [], db => ⟨db, []⟩
  | fn :: rest, db =>
    if hasFileAssoc db ident fn then resourceLoop env ident base rest db
    else
      let rurl := base ++ "/" ++ fn
      let f := _insert_module_file env.md5hex ident fn (env.contentType rurl)
                 (env.getBody rurl) db
      let r := resourceLoop env ident base rest f.2
      ⟨r.db, ("inserted", fn) :: r.reports⟩

/-- The resource phase for one persisted module: list the remote filenames
at `(mid, version)/objectIds`, drop the first `index.cnxml` (`ValueError`
when absent), then run the probe-and-insert loop. -/
def moduleResourcePhase (env : Env) (ident : Nat) (mid version : String)
    (db : DB) : Except Err ResOut :=
  let base := to_url env.host mid version
  match removeFirst (env.objectIds (base ++ "/objectIds")) "index.cnxml" with
  | none => .error (.valueErr "index.cnxml is not in list")
  | some fns => .ok (resourceLoop env ident base fns db)

/-- The existence-check-or-insert step of `Populator.__call__` for one
`(metadata, document)` pair: look the `(moduleid, version)` pair up; when
found read the stored type back and report `exists`; when absent run the
insert transaction and report `inserted`. -/
def pairStep (env : Env) (mdata : ModuleData) (content : String) (db : DB) :
    Except Err ((Nat × String) × DB × String) :=
  match get_module_ident_from_metadata mdata.metadata db with
  | some ident =>
    match get_module_type_from_ident ident db with
    | .error e => .error e
    | .ok ty => .ok ((ident, ty), db, "exists")
  | none =>
    match insert_module env mdata content db with
    | .error e => .error e
    | .ok r => .ok (r.1, r.2, "inserted")

/-- What `Populator.__call__` produces: the stream of yielded idents, the
`report_activity_on_ident` lines, the resource `report_activity` lines, the
terminating exception if any, and the final cache and store. -/
structure PopResult where
  idents : List Nat
  reports : List (String × Nat)
  resourceReports : List (String × String)
  error? : Option Err
  cache : Cache
  db : DB
deriving Repr

/-- The module branch of the per-pair recursion of `Populator.__call__`:
read the stored version of the record and run the resource phase. -/
def moduleBranch (env : Env) (ident : Nat) (mid : String) (c : Cache)
    (db : DB) : PopResult :=
  match _get_module_version ident db with
  | .error e => ⟨[], [], [], some e, c, db⟩
  | .ok version =>
    match moduleResourcePhase env ident mid version db with
    | .error e => ⟨[], [], [], some e, c, db⟩
    | .ok r => ⟨[], [], r.reports, none, c, r.db⟩

/-- The control states of `Populator.__call__`: processing an identifier
(about to call `get_versions`), looping over the remaining versions of an
identifier, running the per-type recursion for one checked-or-inserted
record, or looping over the remaining children of a collection. -/
inductive PopTask
  | content (mid : String)
  | versions (mid : String) (vs : List String)
  | recurse (mid : String) (ident : Nat) (ty : String)
  | children (mids : List String)

/-- `Populator.__call__` as a fuelled recursive interpreter.  One fuel unit
is consumed per control step; running out models the interpreter recursion
limit.  `.content mid` obtains the version list and enters the version
loop.  For each version the resolver step runs (advancing the cache), then
the existence-check-or-insert, the yield of the ident, and the per-type
recursion: a Collection reads its stored primary document back and recurses
into each child in document order, forwarding every emitted ident upward; a
Module runs the resource phase.  Any exception aborts the remaining
traversal, keeping the elements already yielded. -/
def popGo (env : Env) (en : Bool) : Nat → PopTask → Cache → DB → PopResult
  | 0, _, c, db => ⟨[], [], [], some .recursionLimit, c, db⟩
  | fuel + 1, .content mid, c, db =>
    let g := get_versions env en c mid
    match g.val with
    | .error e => ⟨[], [], [], some e, g.cache, db⟩
    | .ok vs => popGo env en fuel (.versions mid vs) g.cache db
  | _ + 1, .versions _ [], c, db => ⟨[], [], [], none, c, db⟩
  | fuel + 1, .versions mid (v :: rest), c, db =>
    let s := resolveStep env en c mid v
    match s.val with
    | .error e => ⟨[], [], [], some e, s.cache, db⟩
    | .ok p =>
      match pairStep env p.1 p.2 db with
      | .error e => ⟨[], [], [], some e, s.cache, db⟩
      | .ok r =>
        let sub := popGo env en fuel (.recurse mid r.1.1 r.1.2) s.cache r.2.1
        match sub.error? with
        | some e =>
          ⟨r.1.1 :: sub.idents, (r.2.2, r.1.1) :: sub.reports,
           sub.resourceReports, some e, sub.cache, sub.db⟩
        | none =>
          let r2 := popGo env en fuel (.versions mid rest) sub.cache sub.db
          ⟨r.1.1 :: (sub.idents ++ r2.idents),
           (r.2.2, r.1.1) :: (sub.reports ++ r2.reports),
           sub.resourceReports ++ r2.resourceReports,
           r2.error?, r2.cache, r2.db⟩
  | fuel + 1, .recurse mid ident ty, c, db =>
    if ty == COLLECTION then
      match _get_module_contents env ident db with
      | .error e => ⟨[], [], [], some e, c, db⟩
      | .ok cs => popGo env en fuel (.children cs) c db
    else if ty == MODULE then moduleBranch env ident mid c db
    else ⟨[], [], [], none, c, db⟩
  | _ + 1, .children [], c, db => ⟨[], [], [], none, c, db⟩
  | fuel + 1, .children (m :: rest), c, db =>
    let r1 := popGo env en fuel (.content m) c db
    match r1.error? with
    | some e => ⟨r1.idents, r1.reports, r1.resourceReports, some e, r1.cache, r1.db⟩
    | none =>
      let r2 := popGo env en fuel (.children rest) r1.cache r1.db
      ⟨r1.idents ++ r2.idents, r1.reports ++ r2.reports,
       r1.resourceReports ++ r2.resourceReports, r2.error?, r2.cache, r2.db⟩

/-- `Populator.__call__` on one content identifier. -/
def populate (env : Env) (en : Bool) (fuel : Nat) (mid : String) (c : Cache)
    (db : DB) : PopResult :=
  popGo env en fuel (.content mid) c db

/-- A cache state is consistent with the host when every stored entry holds
the body the host serves for its url.  The empty cache is consistent, and
the pipeline only ever stores just-fetched bodies, so consistency is the
invariant operating regime of the persistent cache. -/
def CacheConsistent (env : Env) (c : Cache) : Prop :=
  ∀ e ∈ c, e.2 = env.getBody e.1

/-- `db'` extends `db` by appending rows: the three tables read back by the
population engine are append-only extended.  Every write of the engine has
this shape. -/
structure DBExtends (db db' : DB) : Prop where
  modules : ∃ t, db'.modules = db.modules ++ t
  files : ∃ t, db'.files = db.files ++ t
  module_files : ∃ t, db'.module_files = db.module_files ++ t

/-- Store well-formedness: every persisted module ident is below the serial
counter, so a freshly generated ident is not already present. -/
def DBWF (db : DB) : Prop :=
  ∀ r ∈ db.modules, r.module_ident < db.nextId

/-! ### Concrete host and store instances for the executable scenarios -/

/-- Metadata the module parser extracts from the document `docm`
(document-side version `1.0`, later overwritten per iteration). -/
def wMeta : Metadata :=
  ⟨"m100", "1.0", "n", "cr", "rv", "", "", "", "en", [], [], [], "Module"⟩

/-- `parse_to_metadata` result for the document `docm`. -/
def wData : ModuleData := ⟨"abs", "L", wMeta, [], []⟩

/-- A concrete host serving one module `m100` with a single version `1.1`,
one history page, and two resource files besides the primary document. -/
def wEnv : Env :=
  { host := "h"
    getBody := fun u =>
      if u = "http://h/content/m100/latest/content_info" then "hist"
      else if u = "http://h/content/m100/1.1/source" then "docm"
      else ""
    contentType := fun _ => "image/png"
    objectIds := fun _ => ["index.cnxml", "pic.png", "data.csv"]
    parseVersionHistory := fun d =>
      if d = "hist" then .ok ["1.1"] else .error "bad html"
    parseMeta := fun _ d => if d = "docm" then .ok wData else .error "bad doc"
    parseContents := fun _ => .error "no contents"
    md5hex := fun s => s }

/-- A store seeded only with the licence the scenarios resolve. -/
def dbW : DB := ⟨[], [(1, "L")], [], [], [], [], [], [], [], 2⟩

/-- Collection metadata for `c1` (document-side version `1.0`). -/
def cMeta : Metadata :=
  ⟨"c1", "1.0", "n", "cr", "rv", "", "", "", "en", [], [], [], "Collection"⟩

/-- `parse_to_metadata` result for the collection document `docc`. -/
def cData : ModuleData := ⟨"abs", "L", cMeta, [], []⟩

/-- Metadata for module `m101` (version `2.1`). -/
def nMeta : Metadata :=
  ⟨"m101", "1.9", "n", "cr", "rv", "", "", "", "en", [], [], [], "Module"⟩

/-- `parse_to_metadata` result for the document `docn`. -/
def nData : ModuleData := ⟨"abs", "L", nMeta, [], []⟩

/-- A concrete host serving a collection `c1` (latest `1.5`, one version)
whose stored primary document lists children `m100` then `m101`, each a
single-version module with no extra resources. -/
def env8 : Env :=
  { host := "h"
    getBody := fun u =>
      if u = "http://h/content/c1/latest/getVersion" then "1.5"
      else if u = "http://h/content/c1/1.5/content_info" then "histc"
      else if u = "http://h/content/c1/1.5/source" then "docc"
      else if u = "http://h/content/m100/latest/content_info" then "histm"
      else if u = "http://h/content/m100/1.1/source" then "docm"
      else if u = "http://h/content/m101/latest/content_info" then "histn"
      else if u = "http://h/content/m101/2.1/source" then "docn"
      else ""
    contentType := fun _ => "image/png"
    objectIds := fun _ => ["index.cnxml"]
    parseVersionHistory := fun d =>
      if d = "histc" then .ok ["1.5"]
      else if d = "histm" then .ok ["1.1"]
      else if d = "histn" then .ok ["2.1"]
      else .error "bad html"
    parseMeta := fun _ d =>
      if d = "docc" then .ok cData
      else if d = "docm" then .ok wData
      else if d = "docn" then .ok nData
      else .error "bad doc"
    parseContents := fun d =>
      if d = "docc" then .ok ["m100", "m101"] else .error "no contents"
    md5hex := fun s => s }

/-- A host whose `getVersion` for `m100` answers `9.9` while the history
pages keyed by `latest` and by `9.9` carry different version labels: it
separates the two candidate keys of the history lookup. -/
def envC5 : Env :=
  { host := "h"
    getBody := fun u =>
      if u = "http://h/content/m100/latest/getVersion" then "9.9"
      else if u = "http://h/content/m100/latest/content_info" then "histL"
      else if u = "http://h/content/m100/9.9/content_info" then "hist9"
      else ""
    contentType := fun _ => "image/png"
    objectIds := fun _ => ["index.cnxml"]
    parseVersionHistory := fun d =>
      if d = "histL" then .ok ["1.1"]
      else if d = "hist9" then .ok ["2.2"]
      else .error "bad html"
    parseMeta := fun _ _ => .error "bad doc"
    parseContents := fun _ => .error "no contents"
    md5hex := fun s => s }

/-- A store where the module with ident 3 already owns the `pic.png`
association, for probing the resource phase. -/
def dbC7 : DB :=
  ⟨[], [(1, "L")], [], [], [⟨3, 9, "pic.png", "image/png"⟩], [], [], [], [], 10⟩

/-! ### List and option toolkit -/

/-- A first-match lookup that succeeds is stable under appending rows. -/
theorem find?_append_some {α : Type} {p : α → Bool} {l : List α} {x : α}
    (t : List α) (h : l.find? p = some x) : (l ++ t).find? p = some x := by
  rw [List.find?_append, h]
  rfl

/-- A first-match lookup that fails on the prefix continues on the suffix. -/
theorem find?_append_none {α : Type} {p : α → Bool} {l : List α}
    (t : List α) (h : l.find? p = none) : (l ++ t).find? p = t.find? p := by
  rw [List.find?_append, h]
  rfl

/-! ### Cache lemmas -/

/-- After `_invalidate_document(url)` the lookup of `url` misses. -/
theorem retrieveDocument_invalidate_self (c : Cache) (url : String) :
    retrieveDocument (invalidateDocument c url) url = none := by
  unfold retrieveDocument invalidateDocument
  rw [Option.map_eq_none']
  rw [List.find?_eq_none]
  intro e he
  have hm := List.mem_filter.mp he
  simp only [bne_iff_ne, ne_eq] at hm
  simp only [beq_iff_eq]
  exact hm.2

/-- Inserting a fresh key makes its lookup hit the inserted document. -/
theorem retrieveDocument_append_self (c : Cache) (url doc : String)
    (h : retrieveDocument c url = none) :
    retrieveDocument (c ++ [(url, doc)]) url = some doc := by
  unfold retrieveDocument at h ⊢
  rw [Option.map_eq_none'] at h
  rw [find?_append_none _ h]
  simp [List.find?]

/-- `_cache_document` succeeds exactly on a fresh key and appends the row. -/
theorem cacheDocument_of_none (c : Cache) (url doc : String)
    (h : retrieveDocument c url = none) :
    cacheDocument c url doc = .ok (c ++ [(url, doc)]) := by
  unfold retrieveDocument at h
  rw [Option.map_eq_none'] at h
  unfold cacheDocument
  rw [h]
  rfl

/-- A hit on a consistent cache returns the body the host serves. -/
theorem retrieve_consistent {env : Env} {c : Cache} {u d : String}
    (hc : CacheConsistent env c) (h : retrieveDocument c u = some d) :
    d = env.getBody u := by
  unfold retrieveDocument at h
  obtain ⟨e, hfind, he2⟩ := Option.map_eq_some'.mp h
  have hpe := List.find?_some hfind
  have hmem := List.mem_of_find?_eq_some hfind
  simp only [beq_iff_eq] at hpe
  rw [← he2, hc e hmem, hpe]

/-- Deleting entries preserves consistency. -/
theorem cacheConsistent_invalidate {env : Env} {c : Cache} (url : String)
    (hc : CacheConsistent env c) :
    CacheConsistent env (invalidateDocument c url) := by
  intro e he
  exact hc e (List.mem_of_mem_filter he)

/-- Storing a just-fetched body preserves consistency. -/
theorem cacheConsistent_append {env : Env} {c : Cache} (url : String)
    (hc : CacheConsistent env c) :
    CacheConsistent env (c ++ [(url, env.getBody url)]) := by
  intro e he
  rcases List.mem_append.mp he with h | h
  · exact hc e h
  · rcases List.mem_singleton.mp h with rfl
    rfl

/-! ### Resolver characterisation under a consistent cache -/

/-- The value produced by `finishResolve` depends only on the document. -/
theorem finishResolve_val (env : Env) (c : Cache) (mid v url doc : String)
    (pre : List String) :
    (finishResolve env c mid v url doc pre).val =
      match parse_to_metadata env mid doc with
      | .error e => .error e
      | .ok md => .ok (setVersion md v, doc) := by
  unfold finishResolve
  cases parse_to_metadata env mid doc <;> rfl

/-- Under a consistent cache, one resolver iteration produces the value
determined by the host body at the iteration's source url, whether or not
the cache is enabled and whatever the cache contents. -/
theorem resolveStep_val_char (env : Env) (en : Bool) (c : Cache)
    (mid v : String) (hc : CacheConsistent env c) :
    (resolveStep env en c mid v).val =
      match parse_to_metadata env mid (env.getBody (sourceUrlOf env mid v)) with
      | .error e => .error e
      | .ok md => .ok (setVersion md v, env.getBody (sourceUrlOf env mid v)) := by
  unfold resolveStep
  cases en with
  | false =>
    simp only [Bool.false_eq_true, if_false]
    rw [cacheDocument_of_none _ _ _ (retrieveDocument_invalidate_self c _)]
    exact finishResolve_val env _ mid v _ _ _
  | true =>
    simp only [if_true]
    cases h : retrieveDocument c (sourceUrlOf env mid v) with
    | some doc =>
      have hd := retrieve_consistent hc h
      subst hd
      exact finishResolve_val env _ mid v _ _ _
    | none =>
      rw [cacheDocument_of_none _ _ _ h]
      exact finishResolve_val env _ mid v _ _ _

/-- The cache left by `finishResolve` stays consistent. -/
theorem finishResolve_cache_consistent {env : Env} {c : Cache}
    (mid v url doc : String) (pre : List String)
    (hc : CacheConsistent env c) :
    CacheConsistent env (finishResolve env c mid v url doc pre).cache := by
  unfold finishResolve
  cases parse_to_metadata env mid doc with
  | error e => exact cacheConsistent_invalidate _ hc
  | ok md => exact hc

/-- Whatever happens inside one resolver iteration, a consistent cache
stays consistent. -/
theorem resolveStep_cache_consistent (env : Env) (en : Bool) (c : Cache)
    (mid v : String) (hc : CacheConsistent env c) :
    CacheConsistent env (resolveStep env en c mid v).cache := by
  unfold resolveStep
  have hinv : CacheConsistent env (invalidateDocument c (sourceUrlOf env mid v)) :=
    cacheConsistent_invalidate _ hc
  cases en with
  | false =>
    simp only [Bool.false_eq_true, if_false]
    rw [cacheDocument_of_none _ _ _ (retrieveDocument_invalidate_self c _)]
    exact finishResolve_cache_consistent _ _ _ _ _
      (cacheConsistent_append (sourceUrlOf env mid v) hinv)
  | true =>
    simp only [if_true]
    cases h : retrieveDocument c (sourceUrlOf env mid v) with
    | some doc => exact finishResolve_cache_consistent _ _ _ _ _ hc
    | none =>
      rw [cacheDocument_of_none _ _ _ h]
      exact finishResolve_cache_consistent _ _ _ _ _
        (cacheConsistent_append (sourceUrlOf env mid v) hc)

/-- The value produced by `finishVersions` depends only on the document. -/
theorem finishVersions_val (env : Env) (c : Cache) (url doc : String)
    (pre : List String) :
    (finishVersions env c url doc pre).val =
      match env.parseVersionHistory doc with
      | .error e => .error (.extraction e)
      | .ok vs => .ok vs.reverse := by
  unfold finishVersions
  cases env.parseVersionHistory doc <;> rfl

/-- The cache left by `finishVersions` stays consistent. -/
theorem finishVersions_cache_consistent {env : Env} {c : Cache}
    (url doc : String) (pre : List String) (hc : CacheConsistent env c) :
    CacheConsistent env (finishVersions env c url doc pre).cache := by
  unfold finishVersions
  cases env.parseVersionHistory doc with
  | error e => exact cacheConsistent_invalidate _ hc
  | ok vs => exact hc

/-- Under a consistent cache, `get_versions` produces the value determined
by the host body at the history url, the scraped labels reversed to
ascending — whatever the cache contents and whether or not caching is
enabled. -/
theorem get_versions_val_char (env : Env) (en : Bool) (c : Cache)
    (mid : String) (hc : CacheConsistent env c) :
    (get_versions env en c mid).val =
      match env.parseVersionHistory (env.getBody (historyUrlOf env mid)) with
      | .error e => .error (.extraction e)
      | .ok vs => .ok vs.reverse := by
  unfold get_versions
  cases en with
  | false =>
    simp only [Bool.false_eq_true, if_false]
    rw [cacheDocument_of_none _ _ _ (retrieveDocument_invalidate_self c _)]
    exact finishVersions_val env _ _ _ _
  | true =>
    simp only [if_true]
    cases h : retrieveDocument c (historyUrlOf env mid) with
    | some doc =>
      rw [retrieve_consistent hc h]
      exact finishVersions_val env _ _ _ _
    | none =>
      rw [cacheDocument_of_none _ _ _ h]
      exact finishVersions_val env _ _ _ _

/-- `get_versions` keeps a consistent cache consistent. -/
theorem get_versions_cache_consistent (env : Env) (en : Bool) (c : Cache)
    (mid : String) (hc : CacheConsistent env c) :
    CacheConsistent env (get_versions env en c mid).cache := by
  unfold get_versions
  have hinv : ∀ u, CacheConsistent env (invalidateDocument c u) :=
    fun u => cacheConsistent_invalidate u hc
  cases en with
  | false =>
    simp only [Bool.false_eq_true, if_false]
    rw [cacheDocument_of_none _ _ _ (retrieveDocument_invalidate_self c _)]
    exact finishVersions_cache_consistent _ _ _
      (cacheConsistent_append (historyUrlOf env mid) (hinv _))
  | true =>
    simp only [if_true]
    cases h : retrieveDocument c (historyUrlOf env mid) with
    | some doc => exact finishVersions_cache_consistent _ _ _ hc
    | none =>
      rw [cacheDocument_of_none _ _ _ h]
      exact finishVersions_cache_consistent _ _ _
        (cacheConsistent_append (historyUrlOf env mid) hc)

/-! ### Store extension and read stability -/

/-- Extension is reflexive. -/
theorem dbExtends_refl (db : DB) : DBExtends db db :=
  ⟨⟨[], by simp⟩, ⟨[], by simp⟩, ⟨[], by simp⟩⟩

/-- Extension is transitive. -/
theorem dbExtends_trans {a b c : DB} (h1 : DBExtends a b)
    (h2 : DBExtends b c) : DBExtends a c := by
  obtain ⟨⟨t1, e1⟩, ⟨t2, e2⟩, ⟨t3, e3⟩⟩ := h1
  obtain ⟨⟨s1, f1⟩, ⟨s2, f2⟩, ⟨s3, f3⟩⟩ := h2
  exact ⟨⟨t1 ++ s1, by rw [f1, e1, List.append_assoc]⟩,
         ⟨t2 ++ s2, by rw [f2, e2, List.append_assoc]⟩,
         ⟨t3 ++ s3, by rw [f3, e3, List.append_assoc]⟩⟩

/-- A successful `(moduleid, version)` existence lookup survives appends. -/
theorem get_module_ident_stable {md : Metadata} {db db' : DB} {i : Nat}
    (hext : DBExtends db db')
    (h : get_module_ident_from_metadata md db = some i) :
    get_module_ident_from_metadata md db' = some i := by
  unfold get_module_ident_from_metadata at h ⊢
  obtain ⟨r, hfind, hr⟩ := Option.map_eq_some'.mp h
  obtain ⟨t, ht⟩ := hext.modules
  rw [ht, find?_append_some t hfind]
  simp [hr]

/-- A successful type read-back by ident survives appends. -/
theorem get_module_type_stable {db db' : DB} {i : Nat} {ty : String}
    (hext : DBExtends db db')
    (h : get_module_type_from_ident i db = .ok ty) :
    get_module_type_from_ident i db' = .ok ty := by
  unfold get_module_type_from_ident at h ⊢
  obtain ⟨t, ht⟩ := hext.modules
  cases hfind : db.modules.find? (fun r => r.module_ident == i) with
  | none => rw [hfind] at h; exact absurd h (by simp)
  | some r => rw [hfind] at h; rw [ht, find?_append_some t hfind]; exact h

/-- A successful stored-version read by ident survives appends. -/
theorem get_module_version_stable {db db' : DB} {i : Nat} {v : String}
    (hext : DBExtends db db')
    (h : _get_module_version i db = .ok v) :
    _get_module_version i db' = .ok v := by
  unfold _get_module_version at h ⊢
  obtain ⟨t, ht⟩ := hext.modules
  cases hfind : db.modules.find? (fun r => r.module_ident == i) with
  | none => rw [hfind] at h; exact absurd h (by simp)
  | some r => rw [hfind] at h; rw [ht, find?_append_some t hfind]; exact h

/-- A successful read-back of a collection's stored children survives
appends. -/
theorem get_module_contents_stable {env : Env} {db db' : DB} {i : Nat}
    {cs : List String} (hext : DBExtends db db')
    (h : _get_module_contents env i db = .ok cs) :
    _get_module_contents env i db' = .ok cs := by
  unfold _get_module_contents at h ⊢
  obtain ⟨t, ht⟩ := hext.module_files
  obtain ⟨s, hs⟩ := hext.files
  cases hfind : db.module_files.find? (fun a => a.module_ident == i) with
  | none => simp only [hfind] at h; exact absurd h (by simp)
  | some a =>
    simp only [hfind] at h
    have hfind2 : db'.module_files.find? (fun a => a.module_ident == i) = some a := by
      rw [ht]; exact find?_append_some t hfind
    simp only [hfind2]
    cases hfile : db.files.find? (fun f => f.fileid == a.fileid) with
    | none => simp only [hfile] at h; exact absurd h (by simp)
    | some f =>
      simp only [hfile] at h
      have hfile2 : db'.files.find? (fun f => f.fileid == a.fileid) = some f := by
        rw [hs]; exact find?_append_some s hfile
      simp only [hfile2]
      exact h

/-- A present file association stays present under appends. -/
theorem hasFileAssoc_stable {db db' : DB} {i : Nat} {fn : String}
    (hext : DBExtends db db')
    (h : hasFileAssoc db i fn = true) : hasFileAssoc db' i fn = true := by
  unfold hasFileAssoc at h ⊢
  obtain ⟨t, ht⟩ := hext.module_files
  rw [ht, List.any_append, h, Bool.true_or]

/-! ### Insert transaction facts -/

/-- The subject loop touches only `moduletags`. -/
theorem insertSubjects_tables {s : List String} {i : Nat} {db db' : DB}
    (h : insertSubjects s i db = .ok db') :
    db'.modules = db.modules ∧ db'.files = db.files ∧
    db'.module_files = db.module_files ∧ db'.nextId = db.nextId := by
  induction s generalizing db with
  | nil =>
    unfold insertSubjects at h
    cases h
    exact ⟨rfl, rfl, rfl, rfl⟩
  | cons x rest ih =>
    unfold insertSubjects at h
    cases hx : _insert_subject_for_module x i db with
    | error e => rw [hx] at h; exact absurd h (by simp)
    | ok db1 =>
      rw [hx] at h
      have h1 := ih h
      unfold _insert_subject_for_module at hx
      cases hfind : db.tags.find? (fun e => e.2 == x) with
      | none => rw [hfind] at hx; exact absurd hx (by simp)
      | some tg =>
        rw [hfind] at hx
        cases hx
        exact h1

/-- The keyword loop touches only `keywordRows`, `modulekeywords` and the
counter, which only grows. -/
theorem insertKeywords_tables (ks : List String) (i : Nat) (db : DB) :
    (insertKeywords ks i db).modules = db.modules ∧
    (insertKeywords ks i db).files = db.files ∧
    (insertKeywords ks i db).module_files = db.module_files ∧
    db.nextId ≤ (insertKeywords ks i db).nextId := by
  induction ks generalizing db with
  | nil => exact ⟨rfl, rfl, rfl, Nat.le.refl⟩
  | cons k rest ih =>
    unfold insertKeywords _insert_keyword_for_module
    cases hfind : db.keywordRows.find? (fun e => e.2 == k) with
    | some kw =>
      obtain ⟨a, b, c, d⟩ := ih { db with modulekeywords := db.modulekeywords ++ [(i, kw.1)] }
      exact ⟨a, b, c, d⟩
    | none =>
      obtain ⟨a, b, c, d⟩ := ih { db with
        keywordRows := db.keywordRows ++ [(db.nextId, k)],
        modulekeywords := db.modulekeywords ++ [(i, db.nextId)],
        nextId := db.nextId + 1 }
      exact ⟨a, b, c, Nat.le_trans (Nat.le_succ _) d⟩

/-- `_insert_module_file` never touches the `modules` table. -/
theorem insert_module_file_modules (md5hex : String → String) (i : Nat)
    (fn mt file : String) (db : DB) :
    (_insert_module_file md5hex i fn mt file db).2.modules = db.modules := by
  simp only [_insert_module_file]
  cases db.files.find? (fun f => f.md5 == md5hex file) <;> rfl

/-- `_insert_module_file` only ever appends to `files`. -/
theorem insert_module_file_files (md5hex : String → String) (i : Nat)
    (fn mt file : String) (db : DB) :
    ∃ t, (_insert_module_file md5hex i fn mt file db).2.files = db.files ++ t := by
  simp only [_insert_module_file]
  cases db.files.find? (fun f => f.md5 == md5hex file) with
  | none => exact ⟨[⟨db.nextId, md5hex file, file⟩], rfl⟩
  | some f => exact ⟨[], by simp⟩

/-- `_insert_module_file` always appends exactly one fresh association row,
carrying the fileid it returns. -/
theorem insert_module_file_mfiles (md5hex : String → String) (i : Nat)
    (fn mt file : String) (db : DB) :
    (_insert_module_file md5hex i fn mt file db).2.module_files =
      db.module_files ++
        [⟨i, (_insert_module_file md5hex i fn mt file db).1, fn, mt⟩] := by
  simp only [_insert_module_file]
  cases hf : db.files.find? (fun f => f.md5 == md5hex file) <;> simp [hf]

/-- `_insert_module_file` never decreases the serial counter. -/
theorem insert_module_file_nextId (md5hex : String → String) (i : Nat)
    (fn mt file : String) (db : DB) :
    db.nextId ≤ (_insert_module_file md5hex i fn mt file db).2.nextId := by
  simp only [_insert_module_file]
  cases db.files.find? (fun f => f.md5 == md5hex file) with
  | none => exact Nat.le_succ _
  | some f => exact Nat.le.refl

/-- What a successful insert transaction does to the store: the new module
row carries exactly the resolved metadata, the fresh ident is one above the
counter the transaction started from (the abstract row took the counter
itself), the reported type is the metadata's `portal_type`, the three
engine-read tables grow by appends only, and the counter advances past the
fresh ident. -/
theorem insert_module_ok {env : Env} {mdata : ModuleData} {content : String}
    {db : DB} {ident : Nat} {ty : String} {db' : DB}
    (h : insert_module env mdata content db = .ok ((ident, ty), db')) :
    ident = db.nextId + 1 ∧ ty = mdata.metadata.portal_type ∧
    (∃ lid, db'.modules =
      db.modules ++ [⟨db.nextId + 1, mdata.metadata, db.nextId, lid⟩]) ∧
    (∃ t, db'.files = db.files ++ t) ∧
    (∃ t, db'.module_files = db.module_files ++ t) ∧
    db.nextId + 2 ≤ db'.nextId := by
  unfold insert_module _insert_abstract _insert_module at h
  simp only at h
  split at h
  · exact absurd h (by simp)
  next lid hl =>
    split at h
    · exact absurd h (by simp)
    next fn htf =>
      split at h
      · exact absurd h (by simp)
      next db4 hs =>
        simp only [Except.ok.injEq, Prod.mk.injEq] at h
        obtain ⟨⟨hi, hty⟩, hdb⟩ := h
        subst hdb
        obtain ⟨k1, k2, k3, k4⟩ :=
          insertKeywords_tables mdata.keywords (db.nextId + 1) db4
        obtain ⟨s1, s2, s3, s4⟩ := insertSubjects_tables hs
        refine ⟨hi.symm, hty.symm, ⟨lid, ?_⟩, ?_, ?_, ?_⟩
        · rw [k1, s1, insert_module_file_modules]
        · obtain ⟨t, ht⟩ := insert_module_file_files env.md5hex (db.nextId + 1)
            fn "text/xml" content _
          exact ⟨t, by rw [k2, s2, ht]⟩
        · rw [k3, s3, insert_module_file_mfiles]
          exact ⟨_, rfl⟩
        · have hf := insert_module_file_nextId env.md5hex (db.nextId + 1)
            fn "text/xml" content
            { db with abstracts := db.abstracts ++ [(db.nextId, mdata.abstract)],
                      modules := db.modules ++
                        [⟨db.nextId + 1, mdata.metadata, db.nextId, lid⟩],
                      nextId := db.nextId + 1 + 1 }
          simp only at hf
          omega

/-- `_insert_module_file` only appends to the engine-read tables. -/
theorem insert_module_file_extends (md5hex : String → String) (i : Nat)
    (fn mt file : String) (db : DB) :
    DBExtends db (_insert_module_file md5hex i fn mt file db).2 := by
  refine ⟨⟨[], ?_⟩, insert_module_file_files md5hex i fn mt file db, ⟨_, insert_module_file_mfiles md5hex i fn mt file db⟩⟩
  rw [List.append_nil, insert_module_file_modules]

/-- A successful insert transaction only appends to the engine-read
tables. -/
theorem insert_module_extends {env : Env} {mdata : ModuleData}
    {content : String} {db : DB} {ident : Nat} {ty : String} {db' : DB}
    (h : insert_module env mdata content db = .ok ((ident, ty), db')) :
    DBExtends db db' := by
  obtain ⟨_, _, ⟨lid, hm⟩, hf, hmf, _⟩ := insert_module_ok h
  exact ⟨⟨_, hm⟩, hf, hmf⟩

/-- A successful insert transaction preserves store well-formedness. -/
theorem insert_module_wf {env : Env} {mdata : ModuleData}
    {content : String} {db : DB} {ident : Nat} {ty : String} {db' : DB}
    (h : insert_module env mdata content db = .ok ((ident, ty), db'))
    (hwf : DBWF db) : DBWF db' := by
  obtain ⟨_, _, ⟨lid, hm⟩, _, _, hnext⟩ := insert_module_ok h
  intro r hr
  rw [hm] at hr
  rcases List.mem_append.mp hr with hr | hr
  · exact Nat.lt_of_lt_of_le (hwf r hr) (by omega)
  · rcases List.mem_singleton.mp hr with rfl
    simp only
    omega

/-- The existence-check-or-insert step only appends to the store. -/
theorem pairStep_ok_extends {env : Env} {mdata : ModuleData}
    {content : String} {db : DB} {r : (Nat × String) × DB × String}
    (h : pairStep env mdata content db = .ok r) : DBExtends db r.2.1 := by
  unfold pairStep at h
  cases hfind : get_module_ident_from_metadata mdata.metadata db with
  | some ident =>
    simp only [hfind] at h
    cases hty : get_module_type_from_ident ident db with
    | error e => simp only [hty] at h; exact absurd h (by simp)
    | ok ty =>
      simp only [hty, Except.ok.injEq] at h
      subst h
      exact dbExtends_refl db
  | none =>
    simp only [hfind] at h
    cases hins : insert_module env mdata content db with
    | error e => simp only [hins] at h; exact absurd h (by simp)
    | ok q =>
      simp only [hins, Except.ok.injEq] at h
      subst h
      obtain ⟨⟨i, ty⟩, db1⟩ := q
      exact insert_module_extends hins

/-- The existence-check-or-insert step preserves store well-formedness. -/
theorem pairStep_ok_wf {env : Env} {mdata : ModuleData}
    {content : String} {db : DB} {r : (Nat × String) × DB × String}
    (h : pairStep env mdata content db = .ok r) (hwf : DBWF db) :
    DBWF r.2.1 := by
  unfold pairStep at h
  cases hfind : get_module_ident_from_metadata mdata.metadata db with
  | some ident =>
    simp only [hfind] at h
    cases hty : get_module_type_from_ident ident db with
    | error e => simp only [hty] at h; exact absurd h (by simp)
    | ok ty =>
      simp only [hty, Except.ok.injEq] at h
      subst h
      exact hwf
  | none =>
    simp only [hfind] at h
    cases hins : insert_module env mdata content db with
    | error e => simp only [hins] at h; exact absurd h (by simp)
    | ok q =>
      simp only [hins, Except.ok.injEq] at h
      subst h
      obtain ⟨⟨i, ty⟩, db1⟩ := q
      exact insert_module_wf hins hwf

/-! ### Resource loop lemmas -/

/-- The resource loop never touches `modules`, only appends to `files` and
`module_files`, and never decreases the counter. -/
theorem resourceLoop_tables (env : Env) (i : Nat) (base : String) :
    ∀ (fns : List String) (db : DB),
      (resourceLoop env i base fns db).db.modules = db.modules ∧
      (∃ t, (resourceLoop env i base fns db).db.files = db.files ++ t) ∧
      (∃ t, (resourceLoop env i base fns db).db.module_files =
        db.module_files ++ t) ∧
      db.nextId ≤ (resourceLoop env i base fns db).db.nextId := by
  intro fns
  induction fns with
  | nil =>
    intro db
    exact ⟨rfl, ⟨[], by simp [resourceLoop]⟩, ⟨[], by simp [resourceLoop]⟩, Nat.le.refl⟩
  | cons fn rest ih =>
    intro db
    simp only [resourceLoop]
    cases hp : hasFileAssoc db i fn with
    | true =>
      simp only [if_true]
      exact ih db
    | false =>
      simp only [Bool.false_eq_true, if_false]
      obtain ⟨m1, ⟨t2, f2⟩, ⟨t3, f3⟩, n4⟩ :=
        ih (_insert_module_file env.md5hex i fn
          (env.contentType (base ++ "/" ++ fn))
          (env.getBody (base ++ "/" ++ fn)) db).2
      refine ⟨?_, ?_, ?_, ?_⟩
      · rw [m1, insert_module_file_modules]
      · obtain ⟨u, hu⟩ := insert_module_file_files env.md5hex i fn
          (env.contentType (base ++ "/" ++ fn))
          (env.getBody (base ++ "/" ++ fn)) db
        exact ⟨u ++ t2, by rw [f2, hu, List.append_assoc]⟩
      · refine ⟨[⟨i, (_insert_module_file env.md5hex i fn
            (env.contentType (base ++ "/" ++ fn))
            (env.getBody (base ++ "/" ++ fn)) db).1, fn,
            env.contentType (base ++ "/" ++ fn)⟩] ++ t3, ?_⟩
        rw [f3, insert_module_file_mfiles, List.append_assoc]
      · exact Nat.le_trans (insert_module_file_nextId env.md5hex i fn
          (env.contentType (base ++ "/" ++ fn))
          (env.getBody (base ++ "/" ++ fn)) db) n4

/-- The resource loop only appends to the engine-read tables. -/
theorem resourceLoop_extends (env : Env) (i : Nat) (base : String)
    (fns : List String) (db : DB) :
    DBExtends db (resourceLoop env i base fns db).db := by
  obtain ⟨m, f, mf, _⟩ := resourceLoop_tables env i base fns db
  exact ⟨⟨[], by rw [List.append_nil, m]⟩, f, mf⟩

/-- After the resource loop, every processed filename is associated with
the module. -/
theorem resourceLoop_covers (env : Env) (i : Nat) (base : String) :
    ∀ (fns : List String) (db : DB) (fn : String), fn ∈ fns →
      hasFileAssoc (resourceLoop env i base fns db).db i fn = true := by
  intro fns
  induction fns with
  | nil => intro db fn h; exact absurd h (List.not_mem_nil fn)
  | cons f0 rest ih =>
    intro db fn hmem
    simp only [resourceLoop]
    cases hp : hasFileAssoc db i f0 with
    | true =>
      simp only [if_true]
      rcases List.mem_cons.mp hmem with rfl | hr
      · exact hasFileAssoc_stable (resourceLoop_extends env i base rest db) hp
      · exact ih db fn hr
    | false =>
      simp only [Bool.false_eq_true, if_false]
      rcases List.mem_cons.mp hmem with rfl | hr
      · have hnew : hasFileAssoc (_insert_module_file env.md5hex i fn
            (env.contentType (base ++ "/" ++ fn))
            (env.getBody (base ++ "/" ++ fn)) db).2 i fn = true := by
          unfold hasFileAssoc
          rw [insert_module_file_mfiles, List.any_append]
          simp
        exact hasFileAssoc_stable (resourceLoop_extends env i base rest _) hnew
      · exact ih _ fn hr

/-- When every filename is already associated, the resource loop does
nothing: no fetch, no insert, no report. -/
theorem resourceLoop_skipAll (env : Env) (i : Nat) (base : String) :
    ∀ (fns : List String) (db : DB),
      (∀ fn ∈ fns, hasFileAssoc db i fn = true) →
      resourceLoop env i base fns db = ⟨db, []⟩ := by
  intro fns
  induction fns with
  | nil => intro db h; rfl
  | cons f0 rest ih =>
    intro db h
    simp only [resourceLoop]
    rw [h f0 (List.mem_cons_self f0 rest)]
    simp only [if_true]
    exact ih db (fun fn hfn => h fn (List.mem_cons_of_mem f0 hfn))

/-- A resource reported as inserted was not associated with the module when
the loop began: already-associated filenames are skipped. -/
theorem resourceLoop_reports (env : Env) (i : Nat) (base : String) :
    ∀ (fns : List String) (db : DB) (fn : String),
      ("inserted", fn) ∈ (resourceLoop env i base fns db).reports →
      hasFileAssoc db i fn = false := by
  intro fns
  induction fns with
  | nil => intro db fn h; exact absurd h (List.not_mem_nil _)
  | cons f0 rest ih =>
    intro db fn hmem
    simp only [resourceLoop] at hmem
    cases hp : hasFileAssoc db i f0 with
    | true =>
      rw [hp] at hmem
      simp only [if_true] at hmem
      exact ih db fn hmem
    | false =>
      rw [hp] at hmem
      simp only [Bool.false_eq_true, if_false] at hmem
      rcases List.mem_cons.mp hmem with heq | hr
      · obtain ⟨h1, h2⟩ := Prod.mk.injEq .. ▸ heq
        subst h2
        exact hp
      · have hdb2 := ih _ fn hr
        cases hdb : hasFileAssoc db i fn with
        | false => rfl
        | true =>
          exact absurd (hasFileAssoc_stable
            (insert_module_file_extends env.md5hex i f0
              (env.contentType (base ++ "/" ++ f0))
              (env.getBody (base ++ "/" ++ f0)) db) hdb) (by rw [hdb2]; simp)

/-- The association rows added by the resource loop are exactly rows for
this module, for listed filenames that the probe reported missing at loop
entry. -/
theorem resourceLoop_inserts (env : Env) (i : Nat) (base : String) :
    ∀ (fns : List String) (db : DB),
      ∃ t, (resourceLoop env i base fns db).db.module_files =
          db.module_files ++ t ∧
        ∀ a ∈ t, a.module_ident = i ∧ a.filename ∈ fns ∧
          hasFileAssoc db i a.filename = false := by
  intro fns
  induction fns with
  | nil =>
    intro db
    exact ⟨[], by simp [resourceLoop], fun a ha => absurd ha (List.not_mem_nil a)⟩
  | cons f0 rest ih =>
    intro db
    simp only [resourceLoop]
    cases hp : hasFileAssoc db i f0 with
    | true =>
      simp only [if_true]
      obtain ⟨t, ht, hall⟩ := ih db
      exact ⟨t, ht, fun a ha =>
        ⟨(hall a ha).1, List.mem_cons_of_mem f0 (hall a ha).2.1, (hall a ha).2.2⟩⟩
    | false =>
      simp only [Bool.false_eq_true, if_false]
      obtain ⟨t, ht, hall⟩ := ih (_insert_module_file env.md5hex i f0
        (env.contentType (base ++ "/" ++ f0))
        (env.getBody (base ++ "/" ++ f0)) db).2
      refine ⟨⟨i, (_insert_module_file env.md5hex i f0
        (env.contentType (base ++ "/" ++ f0))
        (env.getBody (base ++ "/" ++ f0)) db).1, f0,
        env.contentType (base ++ "/" ++ f0)⟩ :: t, ?_, ?_⟩
      · rw [ht, insert_module_file_mfiles, List.append_assoc]
        rfl
      · intro a ha
        rcases List.mem_cons.mp ha with rfl | ha
        · exact ⟨rfl, List.mem_cons_self f0 rest, hp⟩
        · refine ⟨(hall a ha).1, List.mem_cons_of_mem f0 (hall a ha).2.1, ?_⟩
          cases hdb : hasFileAssoc db i a.filename with
          | false => rfl
          | true =>
            exact absurd (hasFileAssoc_stable
              (insert_module_file_extends env.md5hex i f0
                (env.contentType (base ++ "/" ++ f0))
                (env.getBody (base ++ "/" ++ f0)) db) hdb)
              (by rw [(hall a ha).2.2]; simp)

/-! ### Freshness of inserted rows -/

/-- In a well-formed store, looking up the freshly inserted ident finds the
fresh row: no pre-existing row can carry it. -/
theorem find_by_ident_after_insert {db db' : DB} {row : ModuleRow}
    (hwf : DBWF db) (hm : db'.modules = db.modules ++ [row])
    (hid : row.module_ident = db.nextId + 1) :
    db'.modules.find? (fun r => r.module_ident == db.nextId + 1) = some row := by
  have hnone : db.modules.find? (fun r => r.module_ident == db.nextId + 1) = none := by
    rw [List.find?_eq_none]
    intro x hx
    have := hwf x hx
    simp only [beq_iff_eq]
    omega
  rw [hm, find?_append_none _ hnone]
  simp [List.find?, hid]

/-- After an insert for a pair the existence check failed on, the check
finds the freshly inserted row. -/
theorem get_module_ident_after_insert {mdata : Metadata} {db db' : DB}
    {lid : Nat}
    (hnone : get_module_ident_from_metadata mdata db = none)
    (hm : db'.modules = db.modules ++ [⟨db.nextId + 1, mdata, db.nextId, lid⟩]) :
    get_module_ident_from_metadata mdata db' = some (db.nextId + 1) := by
  unfold get_module_ident_from_metadata at hnone ⊢
  rw [Option.map_eq_none'] at hnone
  rw [hm, find?_append_none _ hnone]
  simp [List.find?]

/-! ### Population engine invariants -/

/-- The module branch leaves the cache untouched. -/
theorem moduleBranch_cache (env : Env) (ident : Nat) (mid : String)
    (c : Cache) (db : DB) : (moduleBranch env ident mid c db).cache = c := by
  unfold moduleBranch
  split
  · rfl
  · split <;> rfl

/-- The module branch only appends to the engine-read tables. -/
theorem moduleBranch_extends (env : Env) (ident : Nat) (mid : String)
    (c : Cache) (db : DB) : DBExtends db (moduleBranch env ident mid c db).db := by
  unfold moduleBranch
  split
  · exact dbExtends_refl db
  · split
    · exact dbExtends_refl db
    next r heq =>
      simp only [moduleResourcePhase] at heq
      split at heq
      · exact absurd heq (by simp)
      next fns hrem =>
        simp only [Except.ok.injEq] at heq
        subst heq
        exact resourceLoop_extends env ident _ fns db

/-- The module branch preserves store well-formedness. -/
theorem moduleBranch_wf (env : Env) (ident : Nat) (mid : String)
    (c : Cache) (db : DB) (hwf : DBWF db) :
    DBWF (moduleBranch env ident mid c db).db := by
  unfold moduleBranch
  split
  · exact hwf
  · split
    · exact hwf
    next r heq =>
      simp only [moduleResourcePhase] at heq
      split at heq
      · exact absurd heq (by simp)
      next fns hrem =>
        simp only [Except.ok.injEq] at heq
        subst heq
        obtain ⟨m1, _, _, n4⟩ := resourceLoop_tables env ident _ fns db
        intro x hx
        rw [m1] at hx
        exact Nat.lt_of_lt_of_le (hwf x hx) n4

/-- The population engine only appends to the engine-read tables. -/
theorem popGo_extends (env : Env) (en : Bool) :
    ∀ (fuel : Nat) (task : PopTask) (c : Cache) (db : DB),
      DBExtends db (popGo env en fuel task c db).db := by
  intro fuel
  induction fuel with
  | zero => intro task c db; exact dbExtends_refl db
  | succ fuel ih =>
    intro task c db
    cases task with
    | content mid =>
      simp only [popGo]
      split
      · exact dbExtends_refl db
      · exact ih _ _ _
    | versions mid vs =>
      cases vs with
      | nil => exact dbExtends_refl db
      | cons v rest =>
        simp only [popGo]
        split
        · exact dbExtends_refl db
        next p hs =>
          split
          · exact dbExtends_refl db
          next r hp =>
            have h1 : DBExtends db r.2.1 := pairStep_ok_extends hp
            have h2 := ih (.recurse mid r.1.1 r.1.2)
              (resolveStep env en c mid v).cache r.2.1
            split
            · exact dbExtends_trans h1 h2
            · exact dbExtends_trans (dbExtends_trans h1 h2) (ih _ _ _)
    | recurse mid ident ty =>
      simp only [popGo]
      split
      · split
        · exact dbExtends_refl db
        · exact ih _ _ _
      · split
        · exact moduleBranch_extends env ident mid c db
        · exact dbExtends_refl db
    | children mids =>
      cases mids with
      | nil => exact dbExtends_refl db
      | cons m rest =>
        simp only [popGo]
        split
        · exact ih _ _ _
        · exact dbExtends_trans (ih _ _ _) (ih _ _ _)

/-- The population engine preserves store well-formedness. -/
theorem popGo_wf (env : Env) (en : Bool) :
    ∀ (fuel : Nat) (task : PopTask) (c : Cache) (db : DB), DBWF db →
      DBWF (popGo env en fuel task c db).db := by
  intro fuel
  induction fuel with
  | zero => intro task c db hwf; exact hwf
  | succ fuel ih =>
    intro task c db hwf
    cases task with
    | content mid =>
      simp only [popGo]
      split
      · exact hwf
      · exact ih _ _ _ hwf
    | versions mid vs =>
      cases vs with
      | nil => exact hwf
      | cons v rest =>
        simp only [popGo]
        split
        · exact hwf
        next p hs =>
          split
          · exact hwf
          next r hp =>
            have h1 : DBWF r.2.1 := pairStep_ok_wf hp hwf
            have h2 := ih (.recurse mid r.1.1 r.1.2)
              (resolveStep env en c mid v).cache r.2.1 h1
            split
            · exact h2
            · exact ih _ _ _ h2
    | recurse mid ident ty =>
      simp only [popGo]
      split
      · split
        · exact hwf
        · exact ih _ _ _ hwf
      · split
        · exact moduleBranch_wf env ident mid c db hwf
        · exact hwf
    | children mids =>
      cases mids with
      | nil => exact hwf
      | cons m rest =>
        simp only [popGo]
        split
        · exact ih _ _ _ hwf
        · exact ih _ _ _ (ih _ _ _ hwf)

/-- The population engine keeps a consistent cache consistent. -/
theorem popGo_cache_consistent (env : Env) (en : Bool) :
    ∀ (fuel : Nat) (task : PopTask) (c : Cache) (db : DB),
      CacheConsistent env c →
      CacheConsistent env (popGo env en fuel task c db).cache := by
  intro fuel
  induction fuel with
  | zero => intro task c db hc; exact hc
  | succ fuel ih =>
    intro task c db hc
    cases task with
    | content mid =>
      simp only [popGo]
      split
      · exact get_versions_cache_consistent env en c mid hc
      · exact ih _ _ _ (get_versions_cache_consistent env en c mid hc)
    | versions mid vs =>
      cases vs with
      | nil => exact hc
      | cons v rest =>
        simp only [popGo]
        have hsc := resolveStep_cache_consistent env en c mid v hc
        split
        · exact hsc
        next p hs =>
          split
          · exact hsc
          next r hp =>
            have h2 := ih (.recurse mid r.1.1 r.1.2)
              (resolveStep env en c mid v).cache r.2.1 hsc
            split
            · exact h2
            · exact ih _ _ _ h2
    | recurse mid ident ty =>
      simp only [popGo]
      split
      · split
        · exact hc
        · exact ih _ _ _ hc
      · split
        · rw [moduleBranch_cache]; exact hc
        · exact hc
    | children mids =>
      cases mids with
      | nil => exact hc
      | cons m rest =>
        simp only [popGo]
        split
        · exact ih _ _ _ hc
        · exact ih _ _ _ (ih _ _ _ hc)

/-- Replay of the existence-check-or-insert step: once a step has
succeeded (finding or inserting its record), running the same step against
any extension of the resulting store finds the record, reports `exists`,
and leaves the store untouched. -/
theorem pairStep_replay {env : Env} {p : ModuleData × String} {db : DB}
    {r : (Nat × String) × DB × String} {db2 : DB}
    (hwf : DBWF db)
    (hp : pairStep env p.1 p.2 db = .ok r)
    (hd : DBExtends r.2.1 db2) :
    pairStep env p.1 p.2 db2 = .ok ((r.1.1, r.1.2), db2, "exists") := by
  have hdb2 : DBExtends db db2 := dbExtends_trans (pairStep_ok_extends hp) hd
  unfold pairStep at hp ⊢
  cases hfind : get_module_ident_from_metadata p.1.metadata db with
  | some i =>
    simp only [hfind] at hp
    cases hty : get_module_type_from_ident i db with
    | error e => simp only [hty] at hp; exact absurd hp (by simp)
    | ok ty =>
      simp only [hty, Except.ok.injEq] at hp
      subst hp
      simp only [get_module_ident_stable hdb2 hfind,
        get_module_type_stable hdb2 hty]
  | none =>
    simp only [hfind] at hp
    cases hins : insert_module env p.1 p.2 db with
    | error e => simp only [hins] at hp; exact absurd hp (by simp)
    | ok q =>
      simp only [hins, Except.ok.injEq] at hp
      subst hp
      obtain ⟨⟨i, ty⟩, db1⟩ := q
      obtain ⟨hi, htyp, ⟨lid, hm⟩, _, _, _⟩ := insert_module_ok hins
      subst hi htyp
      have hf1 : get_module_ident_from_metadata p.1.metadata db1 =
          some (db.nextId + 1) := get_module_ident_after_insert hfind hm
      have hfind2 := get_module_ident_stable hd hf1
      have hrow := find_by_ident_after_insert hwf hm rfl
      have ht1 : get_module_type_from_ident (db.nextId + 1) db1 =
          .ok p.1.metadata.portal_type := by
        unfold get_module_type_from_ident
        rw [hrow]
      have hty2 := get_module_type_stable hd ht1
      simp only [hfind2, hty2]

/-- Replay lemma for the whole engine: a second execution of any control
state, on any consistent cache and against any extension of the store that
a first error-free execution produced, emits the same idents in the same
order, reports `exists` for every one of them, performs no store write and
no resource insert, and succeeds. -/
theorem popGo_rerun (env : Env) (en : Bool) :
    ∀ (fuel : Nat) (task : PopTask) (c : Cache) (db : DB) (c2 : Cache) (db2 : DB),
      CacheConsistent env c → CacheConsistent env c2 → DBWF db →
      (popGo env en fuel task c db).error? = none →
      DBExtends (popGo env en fuel task c db).db db2 →
      (popGo env en fuel task c2 db2).idents =
        (popGo env en fuel task c db).idents ∧
      (popGo env en fuel task c2 db2).reports =
        (popGo env en fuel task c db).idents.map
          (fun i => (("exists" : String), i)) ∧
      (popGo env en fuel task c2 db2).resourceReports = [] ∧
      (popGo env en fuel task c2 db2).error? = none ∧
      (popGo env en fuel task c2 db2).db = db2 := by
  intro fuel
  induction fuel with
  | zero =>
    intro task c db c2 db2 hc hc2 hwf herr hext
    exact absurd herr (by simp [popGo])
  | succ fuel ih =>
    intro task c db c2 db2 hc hc2 hwf herr hext
    cases task with
    | content mid =>
      have hg : (get_versions env en c2 mid).val =
          (get_versions env en c mid).val := by
        rw [get_versions_val_char env en c2 mid hc2,
          get_versions_val_char env en c mid hc]
      simp only [popGo] at herr hext ⊢
      cases hgv : (get_versions env en c mid).val with
      | error e =>
        rw [hgv] at herr
        exact absurd herr (by simp)
      | ok vs =>
        have hg2 : (get_versions env en c2 mid).val = .ok vs := by rw [hg, hgv]
        simp only [hgv] at herr hext
        simp only [hgv, hg2]
        exact ih (.versions mid vs) (get_versions env en c mid).cache db
          (get_versions env en c2 mid).cache db2
          (get_versions_cache_consistent env en c mid hc)
          (get_versions_cache_consistent env en c2 mid hc2)
          hwf herr hext
    | versions mid vs =>
      cases vs with
      | nil =>
        exact ⟨rfl, rfl, rfl, rfl, rfl⟩
      | cons v rest =>
        have hval : (resolveStep env en c2 mid v).val =
            (resolveStep env en c mid v).val := by
          rw [resolveStep_val_char env en c2 mid v hc2,
            resolveStep_val_char env en c mid v hc]
        simp only [popGo] at herr hext ⊢
        cases hs : (resolveStep env en c mid v).val with
        | error e =>
          rw [hs] at herr
          exact absurd herr (by simp)
        | ok p =>
          have hs2 : (resolveStep env en c2 mid v).val = .ok p := by
            rw [hval, hs]
          simp only [hs] at herr hext
          simp only [hs, hs2]
          cases hp : pairStep env p.1 p.2 db with
          | error e =>
            rw [hp] at herr
            exact absurd herr (by simp)
          | ok r =>
            simp only [hp] at herr hext
            have hsc1 := resolveStep_cache_consistent env en c mid v hc
            have hsc2 := resolveStep_cache_consistent env en c2 mid v hc2
            have hwf1 : DBWF r.2.1 := pairStep_ok_wf hp hwf
            cases hsube : (popGo env en fuel (.recurse mid r.1.1 r.1.2)
                (resolveStep env en c mid v).cache r.2.1).error? with
            | some e =>
              rw [hsube] at herr
              exact absurd herr (by simp)
            | none =>
              simp only [hsube] at herr hext
              have hext_sub : DBExtends (popGo env en fuel
                  (.recurse mid r.1.1 r.1.2)
                  (resolveStep env en c mid v).cache r.2.1).db db2 :=
                dbExtends_trans (popGo_extends env en fuel (.versions mid rest)
                  _ _) hext
              have hp2 : pairStep env p.1 p.2 db2 =
                  .ok ((r.1.1, r.1.2), db2, "exists") :=
                pairStep_replay hwf hp
                  (dbExtends_trans (popGo_extends env en fuel
                    (.recurse mid r.1.1 r.1.2) _ _) hext_sub)
              simp only [hp, hp2]
              obtain ⟨i1, i2, i3, i4, i5⟩ := ih (.recurse mid r.1.1 r.1.2)
                (resolveStep env en c mid v).cache r.2.1
                (resolveStep env en c2 mid v).cache db2
                hsc1 hsc2 hwf1 hsube hext_sub
              simp only [hsube, i4, i5]
              obtain ⟨j1, j2, j3, j4, j5⟩ := ih (.versions mid rest)
                (popGo env en fuel (.recurse mid r.1.1 r.1.2)
                  (resolveStep env en c mid v).cache r.2.1).cache
                (popGo env en fuel (.recurse mid r.1.1 r.1.2)
                  (resolveStep env en c mid v).cache r.2.1).db
                (popGo env en fuel (.recurse mid r.1.1 r.1.2)
                  (resolveStep env en c2 mid v).cache db2).cache db2
                (popGo_cache_consistent env en fuel _ _ _ hsc1)
                (popGo_cache_consistent env en fuel _ _ _ hsc2)
                (popGo_wf env en fuel _ _ _ hwf1)
                herr hext
              refine ⟨?_, ?_, ?_, ?_, ?_⟩
              · rw [i1, j1]
              · rw [i2, j2]
                simp
              · rw [i3, j3]
                rfl
              · exact j4
              · exact j5
    | recurse mid ident ty =>
      have hdb2 : DBExtends db db2 :=
        dbExtends_trans (popGo_extends env en (fuel + 1)
          (.recurse mid ident ty) c db) hext
      simp only [popGo] at herr hext ⊢
      cases hcol : ty == COLLECTION with
      | true =>
        simp only [hcol, if_true] at herr hext ⊢
        cases hcs : _get_module_contents env ident db with
        | error e =>
          rw [hcs] at herr
          exact absurd herr (by simp)
        | ok cs =>
          simp only [hcs] at herr hext
          simp only [hcs, get_module_contents_stable hdb2 hcs]
          exact ih (.children cs) c db c2 db2 hc hc2 hwf herr hext
      | false =>
        simp only [hcol, Bool.false_eq_true, if_false] at herr hext ⊢
        cases hmod : ty == MODULE with
        | true =>
          simp only [hmod, if_true] at herr hext ⊢
          unfold moduleBranch at herr hext ⊢
          cases hv : _get_module_version ident db with
          | error e =>
            rw [hv] at herr
            exact absurd herr (by simp)
          | ok ver =>
            simp only [hv] at herr hext
            simp only [hv, get_module_version_stable hdb2 hv]
            simp only [moduleResourcePhase] at herr hext ⊢
            cases hrem : removeFirst (env.objectIds
                (to_url env.host mid ver ++ "/objectIds")) "index.cnxml" with
            | none =>
              rw [hrem] at herr
              exact absurd herr (by simp)
            | some fns =>
              simp only [hrem] at herr hext ⊢
              have hskip : resourceLoop env ident
                  (to_url env.host mid ver) fns db2 = ⟨db2, []⟩ := by
                apply resourceLoop_skipAll
                intro fn hfn
                exact hasFileAssoc_stable hext
                  (resourceLoop_covers env ident _ fns db fn hfn)
              rw [hskip]
              simp
        | false =>
          simp only [hmod, Bool.false_eq_true, if_false] at herr hext ⊢
          simp
    | children mids =>
      cases mids with
      | nil =>
        exact ⟨rfl, rfl, rfl, rfl, rfl⟩
      | cons m rest =>
        simp only [popGo] at herr hext ⊢
        cases hr1e : (popGo env en fuel (.content m) c db).error? with
        | some e =>
          rw [hr1e] at herr
          exact absurd herr (by simp)
        | none =>
          simp only [hr1e] at herr hext
          have hext1 : DBExtends (popGo env en fuel (.content m) c db).db db2 :=
            dbExtends_trans (popGo_extends env en fuel (.children rest) _ _) hext
          obtain ⟨i1, i2, i3, i4, i5⟩ := ih (.content m) c db c2 db2
            hc hc2 hwf hr1e hext1
          simp only [hr1e, i4, i5]
          obtain ⟨j1, j2, j3, j4, j5⟩ := ih (.children rest)
            (popGo env en fuel (.content m) c db).cache
            (popGo env en fuel (.content m) c db).db
            (popGo env en fuel (.content m) c2 db2).cache db2
            (popGo_cache_consistent env en fuel _ _ _ hc)
            (popGo_cache_consistent env en fuel _ _ _ hc2)
            (popGo_wf env en fuel _ _ _ hwf)
            herr hext
          refine ⟨?_, ?_, ?_, ?_, ?_⟩
          · rw [i1, j1]
          · rw [i2, j2]
            simp
          · rw [i3, j3]
            rfl
          · exact j4
          · exact j5

/-! ### Small shared helpers for the claim theorems -/

/-- The empty cache is consistent with any host. -/
theorem cacheConsistent_nil (env : Env) : CacheConsistent env [] :=
  fun e he => absurd he (List.not_mem_nil e)

/-- A string starting with `m` does not start with `c`. -/
theorem startsWithChar_m_not_c {s : String} (h : startsWithChar s 'm' = true) :
    startsWithChar s 'c' = false := by
  unfold startsWithChar at h ⊢
  simp only [beq_iff_eq] at h
  rw [h]
  decide

/-- The requests issued by `finishResolve` are exactly those already made
before the extraction ran. -/
theorem finishResolve_reqs (env : Env) (c : Cache) (mid v url doc : String)
    (pre : List String) : (finishResolve env c mid v url doc pre).reqs = pre := by
  unfold finishResolve
  cases parse_to_metadata env mid doc <;> rfl

/-- A `getVersion` url never coincides with a `source` url: their last
characters differ. -/
theorem append_getVersion_ne_append_source (a b : String) :
    a ++ "/getVersion" ≠ b ++ "/source" := by
  intro h
  have hd : (a ++ "/getVersion").data = (b ++ "/source").data := by rw [h]
  rw [String.data_append, String.data_append] at hd
  have h1 := congrArg List.getLast? hd
  rw [List.getLast?_append, List.getLast?_append] at h1
  have e1 : "/getVersion".data.getLast? = some 'n' := by decide
  have e2 : "/source".data.getLast? = some 'e' := by decide
  rw [e1, e2] at h1
  have h2 : (some 'n' : Option Char) = some 'e' := h1
  exact absurd h2 (by decide)

/-- A `getVersion` url never coincides with a `content_info` url either:
their last characters differ. -/
theorem append_getVersion_ne_append_content_info (a b : String) :
    a ++ "/getVersion" ≠ b ++ "/content_info" := by
  intro h
  have hd : (a ++ "/getVersion").data = (b ++ "/content_info").data := by rw [h]
  rw [String.data_append, String.data_append] at hd
  have h1 := congrArg List.getLast? hd
  rw [List.getLast?_append, List.getLast?_append] at h1
  have e1 : "/getVersion".data.getLast? = some 'n' := by decide
  have e2 : "/content_info".data.getLast? = some 'o' := by decide
  rw [e1, e2] at h1
  have h2 : (some 'n' : Option Char) = some 'o' := h1
  exact absurd h2 (by decide)

/-- The requests issued by `finishVersions` are exactly those already made
before the history parse ran. -/
theorem finishVersions_reqs (env : Env) (c : Cache) (url doc : String)
    (pre : List String) : (finishVersions env c url doc pre).reqs = pre := by
  unfold finishVersions
  cases env.parseVersionHistory doc <;> rfl

/-- What `resources.pop(resources.index(y))` does when `y` is present:
remove exactly the first occurrence. -/
theorem removeFirst_spec {l : List String} {y : String} (h : y ∈ l) :
    ∃ front back fns, removeFirst l y = some fns ∧
      l = front ++ y :: back ∧ y ∉ front ∧ fns = front ++ back := by
  induction l with
  | nil => exact absurd h (List.not_mem_nil y)
  | cons x xs ih =>
    unfold removeFirst
    cases hxy : x == y with
    | true =>
      simp only [if_true]
      rw [beq_iff_eq] at hxy
      subst hxy
      exact ⟨[], xs, xs, rfl, rfl, List.not_mem_nil x, rfl⟩
    | false =>
      simp only [Bool.false_eq_true, if_false]
      have hxney : x ≠ y := by
        intro hcon
        rw [hcon] at hxy
        simp at hxy
      have hmem : y ∈ xs := by
        rcases List.mem_cons.mp h with rfl | hr
        · exact absurd rfl hxney
        · exact hr
      obtain ⟨front, back, fns, h1, h2, h3, h4⟩ := ih hmem
      rw [h1]
      refine ⟨x :: front, back, x :: fns, rfl, ?_, ?_, ?_⟩
      · rw [h2]
        rfl
      · intro hcon
        rcases List.mem_cons.mp hcon with heq | hmm
        · exact hxney heq.symm
        · exact h3 hmm
      · rw [h4]
        rfl

/-! ### The claims -/

/-- C2 counterexample: `put(url, document)` is a plain `INSERT` into a
table whose primary key is the url; the first put of a url succeeds, and a
second put of the same url fails with a uniqueness violation instead of
overwriting, so the claim that putting twice for the same URL does not
fail, with last-write-wins, is false. -/
theorem document_cache_put_counterexample :
    cacheDocument [] "u" "d" = .ok [("u", "d")] ∧
    cacheDocument [("u", "d")] "u" "d" = .error .integrity :=
  ⟨rfl, rfl⟩

/-- C2 amended: `put(url, document)` succeeds and leaves the cache mapping
the url to the document when the url is absent from the cache; when the url
is already present it fails with the primary-key uniqueness violation.
(The resolver only ever calls put after a miss or after deleting the entry,
so the failing case is unreachable in its own flow.) -/
theorem document_cache_put_amended (c : Cache) (url doc : String) :
    (retrieveDocument c url = none →
      cacheDocument c url doc = .ok (c ++ [(url, doc)]) ∧
      retrieveDocument (c ++ [(url, doc)]) url = some doc) ∧
    (retrieveDocument c url ≠ none →
      cacheDocument c url doc = .error .integrity) := by
  constructor
  · intro h
    exact ⟨cacheDocument_of_none c url doc h,
      retrieveDocument_append_self c url doc h⟩
  · intro h
    cases hf : c.find? (fun e => e.1 == url) with
    | none =>
      refine absurd ?_ h
      unfold retrieveDocument
      rw [hf]
      rfl
    | some x =>
      unfold cacheDocument
      rw [hf]
      rfl

/-- C2 amended, witnessed on a concrete cache: put of an absent url
inserts and the mapping is readable back. -/
theorem document_cache_put_amended_witness :
    retrieveDocument ([] : Cache) "u" = none ∧
    (cacheDocument ([] : Cache) "u" "d" = .ok [("u", "d")] ∧
     retrieveDocument ([("u", "d")] : Cache) "u" = some "d") :=
  ⟨rfl, (document_cache_put_amended [] "u" "d").1 rfl⟩

/-- C3: under a consistent cache, the `(metadata, document)` pair the
resolver produces for version `v` of a Collection identifier (prefix `c`)
comes from the source document fetched at the latest-version url, with the
extracted metadata's version field overwritten to `v`; for a Module
identifier (prefix `m`) the source is fetched at the url for exactly
version `v`. -/
theorem collection_special_case_resolution (env : Env) (en : Bool)
    (c : Cache) (mid v : String) (hc : CacheConsistent env c) :
    (startsWithChar mid 'c' = true →
      (resolveStep env en c mid v).val =
        match parse_to_metadata env mid (env.getBody
            (to_source_url env.host mid (get_latest_version env mid))) with
        | .error e => .error e
        | .ok md => .ok (setVersion md v, env.getBody
            (to_source_url env.host mid (get_latest_version env mid)))) ∧
    (startsWithChar mid 'm' = true →
      (resolveStep env en c mid v).val =
        match parse_to_metadata env mid (env.getBody
            (to_source_url env.host mid v)) with
        | .error e => .error e
        | .ok md => .ok (setVersion md v, env.getBody
            (to_source_url env.host mid v))) := by
  constructor
  · intro hm
    rw [resolveStep_val_char env en c mid v hc]
    simp only [sourceUrlOf, hm, if_true]
  · intro hm
    rw [resolveStep_val_char env en c mid v hc]
    simp only [sourceUrlOf, startsWithChar_m_not_c hm, Bool.false_eq_true,
      if_false]

/-- C3 witnessed on the concrete collection `c1`, version `1.5`: the pair
is produced from the source at the latest-version url with the version
overwritten. -/
theorem collection_special_case_resolution_witness :
    CacheConsistent env8 [] ∧ startsWithChar "c1" 'c' = true ∧
    (resolveStep env8 true [] "c1" "1.5").val =
      match parse_to_metadata env8 "c1" (env8.getBody
          (to_source_url env8.host "c1" (get_latest_version env8 "c1"))) with
      | .error e => .error e
      | .ok md => .ok (setVersion md "1.5", env8.getBody
          (to_source_url env8.host "c1" (get_latest_version env8 "c1"))) :=
  ⟨cacheConsistent_nil env8, by decide,
    (collection_special_case_resolution env8 true [] "c1" "1.5"
      (cacheConsistent_nil env8)).1 (by decide)⟩

/-- C9: on every successfully yielded `(metadata, document)` pair — for
Modules as well as Collections — the metadata's version field equals the
iteration's version label, the document-extracted version notwithstanding:
the overwrite is applied unconditionally. -/
theorem resolver_version_overwrite_unconditional (env : Env) (en : Bool)
    (c : Cache) (mid v : String) (mdata : ModuleData) (content : String)
    (h : (resolveStep env en c mid v).val = .ok (mdata, content)) :
    mdata.metadata.version = v := by
  simp only [resolveStep] at h
  split at h
  · unfold finishResolve at h
    split at h
    · exact absurd h (by simp)
    next md hmd =>
      simp only [Except.ok.injEq, Prod.mk.injEq] at h
      obtain ⟨h1, h2⟩ := h
      rw [← h1]
      rfl
  · split at h
    · exact absurd h (by simp)
    next c2 hc2 =>
      unfold finishResolve at h
      split at h
      · exact absurd h (by simp)
      next md hmd =>
        simp only [Except.ok.injEq, Prod.mk.injEq] at h
        obtain ⟨h1, h2⟩ := h
        rw [← h1]
        rfl

/-- C9 witnessed: the pair yielded for module `m100` at version `1.1`
carries version `1.1` although the document's extracted version is `1.0`. -/
theorem resolver_version_overwrite_witness :
    (resolveStep wEnv true [] "m100" "1.1").val =
      .ok (setVersion wData "1.1", "docm") ∧
    wMeta.version = "1.0" ∧
    (setVersion wData "1.1").metadata.version = "1.1" :=
  ⟨by decide, rfl,
    resolver_version_overwrite_unconditional wEnv true [] "m100" "1.1"
      (setVersion wData "1.1") "docm" (by decide)⟩

/-- C10: with caching disabled the resolver still mutates the persistent
cache on every resolution step: for the source url of a version and for the
version-history url it deletes any existing entry, fetches from the host,
and writes the fresh body into the cache — only the cache read is bypassed,
not the writes.  (Stated on the successful-extraction path; an extraction
failure additionally deletes the just-written entry.) -/
theorem cache_disabled_still_writes (env : Env) (c : Cache) (mid v : String)
    (md : ModuleData) (vs : List String)
    (h1 : parse_to_metadata env mid
      (env.getBody (sourceUrlOf env mid v)) = .ok md)
    (h2 : env.parseVersionHistory
      (env.getBody (historyUrlOf env mid)) = .ok vs) :
    (resolveStep env false c mid v).cache =
      invalidateDocument c (sourceUrlOf env mid v) ++
        [(sourceUrlOf env mid v, env.getBody (sourceUrlOf env mid v))] ∧
    (get_versions env false c mid).cache =
      invalidateDocument c (historyUrlOf env mid) ++
        [(historyUrlOf env mid, env.getBody (historyUrlOf env mid))] := by
  constructor
  · simp only [resolveStep, Bool.false_eq_true, if_false]
    rw [cacheDocument_of_none _ _ _ (retrieveDocument_invalidate_self c _)]
    simp only [finishResolve, h1]
  · simp only [get_versions, Bool.false_eq_true, if_false]
    rw [cacheDocument_of_none _ _ _ (retrieveDocument_invalidate_self c _)]
    simp only [finishVersions, h2]

/-- C10 witnessed: with caching disabled, a stale entry for `m100`'s
source url is deleted and the freshly fetched body is written back. -/
theorem cache_disabled_still_writes_witness :
    parse_to_metadata wEnv "m100"
      (wEnv.getBody (sourceUrlOf wEnv "m100" "1.1")) = .ok wData ∧
    (resolveStep wEnv false [(sourceUrlOf wEnv "m100" "1.1", "OLD")]
        "m100" "1.1").cache =
      invalidateDocument [(sourceUrlOf wEnv "m100" "1.1", "OLD")]
          (sourceUrlOf wEnv "m100" "1.1") ++
        [(sourceUrlOf wEnv "m100" "1.1",
          wEnv.getBody (sourceUrlOf wEnv "m100" "1.1"))] :=
  ⟨by decide,
    (cache_disabled_still_writes wEnv
      [(sourceUrlOf wEnv "m100" "1.1", "OLD")] "m100" "1.1" wData ["1.1"]
      (by decide) (by decide)).1⟩

/-- C4: failure-driven invalidation, for both failure sites the source
names.  First part — when the cached document for the source url of
version `v` makes the metadata extractor fail, the resolver deletes that
url's cache entry and re-raises the failure without yielding anything for
this or any later version; the next resolver step for the same version
then takes the cache-miss path and requests the source url from the remote
host exactly once instead of failing again on the stale entry.  Second
part — the same contract for the version-history page: when the cached
history page makes the `lxml.html` parse of `get_versions` fail, the entry
is deleted and the failure propagated, the whole resolver sequence yields
nothing, and the next `get_versions` call takes the cache-miss path and
requests the history url exactly once. -/
theorem invalidate_then_propagate_refetch (env : Env) (c : Cache)
    (mid v doc dochist : String) (e : Err) (ehist : String)
    (rest : List String) :
    (retrieveDocument c (sourceUrlOf env mid v) = some doc →
     parse_to_metadata env mid doc = .error e →
     (resolveLoop env true mid (v :: rest) c).yielded = [] ∧
     (resolveLoop env true mid (v :: rest) c).error? = some e ∧
     (resolveLoop env true mid (v :: rest) c).cache =
       invalidateDocument c (sourceUrlOf env mid v) ∧
     retrieveDocument (invalidateDocument c (sourceUrlOf env mid v))
       (sourceUrlOf env mid v) = none ∧
     (resolveStep env true (invalidateDocument c (sourceUrlOf env mid v))
       mid v).reqs.count (sourceUrlOf env mid v) = 1) ∧
    (retrieveDocument c (historyUrlOf env mid) = some dochist →
     env.parseVersionHistory dochist = .error ehist →
     (get_versions env true c mid).val = .error (.extraction ehist) ∧
     (get_versions env true c mid).cache =
       invalidateDocument c (historyUrlOf env mid) ∧
     (resolveAll env true c mid).yielded = [] ∧
     (resolveAll env true c mid).error? = some (.extraction ehist) ∧
     retrieveDocument (invalidateDocument c (historyUrlOf env mid))
       (historyUrlOf env mid) = none ∧
     (get_versions env true (invalidateDocument c (historyUrlOf env mid))
       mid).reqs.count (historyUrlOf env mid) = 1) := by
  constructor
  · intro hhit hfail
    have step1 : resolveStep env true c mid v =
        ⟨.error e, invalidateDocument c (sourceUrlOf env mid v),
         if startsWithChar mid 'c' then [get_latest_version_req env mid]
         else []⟩ := by
      simp only [resolveStep, if_true, hhit, finishResolve, hfail]
    have hmiss := retrieveDocument_invalidate_self c (sourceUrlOf env mid v)
    refine ⟨?_, ?_, ?_, hmiss, ?_⟩
    · simp only [resolveLoop, step1]
    · simp only [resolveLoop, step1]
    · simp only [resolveLoop, step1]
    · simp only [resolveStep, if_true, hmiss,
        cacheDocument_of_none _ _ _ hmiss, finishResolve_reqs]
      cases hcp : startsWithChar mid 'c' with
      | true =>
        simp only [hcp, if_true]
        have hne : (get_latest_version_req env mid ==
            sourceUrlOf env mid v) = false := by
          rw [beq_eq_false_iff_ne]
          unfold get_latest_version_req sourceUrlOf to_source_url
          exact append_getVersion_ne_append_source _ _
        simp [List.count_cons, hne]
      | false =>
        simp only [hcp, Bool.false_eq_true, if_false]
        simp [List.count_cons]
  · intro hhit2 hfail2
    have stepV : get_versions env true c mid =
        ⟨.error (.extraction ehist),
         invalidateDocument c (historyUrlOf env mid),
         if startsWithChar mid 'm' then []
         else [get_latest_version_req env mid]⟩ := by
      simp only [get_versions, if_true, hhit2, finishVersions, hfail2]
    have hmiss2 := retrieveDocument_invalidate_self c (historyUrlOf env mid)
    refine ⟨?_, ?_, ?_, ?_, hmiss2, ?_⟩
    · simp only [stepV]
    · simp only [stepV]
    · simp only [resolveAll, stepV]
    · simp only [resolveAll, stepV]
    · simp only [get_versions, if_true, hmiss2,
        cacheDocument_of_none _ _ _ hmiss2, finishVersions_reqs]
      cases hcp : startsWithChar mid 'm' with
      | true =>
        simp only [hcp, if_true]
        simp [List.count_cons]
      | false =>
        simp only [hcp, Bool.false_eq_true, if_false]
        have hne : (get_latest_version_req env mid ==
            historyUrlOf env mid) = false := by
          rw [beq_eq_false_iff_ne]
          unfold get_latest_version_req historyUrlOf
          exact append_getVersion_ne_append_content_info _ _
        simp [List.count_cons, hne]

/-- C4 witnessed on a cache poisoned at both failure sites: the bad
source document for `m100` makes the resolver fail, invalidate and refetch
that url exactly once, and the bad history page makes `get_versions` fail,
invalidate and refetch the history url exactly once, the whole sequence
yielding nothing. -/
theorem invalidate_then_propagate_refetch_witness :
    (retrieveDocument [(sourceUrlOf wEnv "m100" "1.1", "BAD"),
        (historyUrlOf wEnv "m100", "BADHTML")]
      (sourceUrlOf wEnv "m100" "1.1") = some "BAD" ∧
     parse_to_metadata wEnv "m100" "BAD" = .error (.extraction "bad doc") ∧
     ((resolveLoop wEnv true "m100" ["1.1"]
         [(sourceUrlOf wEnv "m100" "1.1", "BAD"),
          (historyUrlOf wEnv "m100", "BADHTML")]).yielded = [] ∧
      (resolveLoop wEnv true "m100" ["1.1"]
         [(sourceUrlOf wEnv "m100" "1.1", "BAD"),
          (historyUrlOf wEnv "m100", "BADHTML")]).error? =
        some (.extraction "bad doc") ∧
      (resolveLoop wEnv true "m100" ["1.1"]
         [(sourceUrlOf wEnv "m100" "1.1", "BAD"),
          (historyUrlOf wEnv "m100", "BADHTML")]).cache =
        invalidateDocument [(sourceUrlOf wEnv "m100" "1.1", "BAD"),
            (historyUrlOf wEnv "m100", "BADHTML")]
          (sourceUrlOf wEnv "m100" "1.1") ∧
      retrieveDocument (invalidateDocument
         [(sourceUrlOf wEnv "m100" "1.1", "BAD"),
          (historyUrlOf wEnv "m100", "BADHTML")]
         (sourceUrlOf wEnv "m100" "1.1")) (sourceUrlOf wEnv "m100" "1.1") =
        none ∧
      (resolveStep wEnv true (invalidateDocument
         [(sourceUrlOf wEnv "m100" "1.1", "BAD"),
          (historyUrlOf wEnv "m100", "BADHTML")]
         (sourceUrlOf wEnv "m100" "1.1")) "m100" "1.1").reqs.count
        (sourceUrlOf wEnv "m100" "1.1") = 1)) ∧
    (retrieveDocument [(sourceUrlOf wEnv "m100" "1.1", "BAD"),
        (historyUrlOf wEnv "m100", "BADHTML")]
      (historyUrlOf wEnv "m100") = some "BADHTML" ∧
     wEnv.parseVersionHistory "BADHTML" = .error "bad html" ∧
     ((get_versions wEnv true [(sourceUrlOf wEnv "m100" "1.1", "BAD"),
          (historyUrlOf wEnv "m100", "BADHTML")] "m100").val =
        .error (.extraction "bad html") ∧
      (get_versions wEnv true [(sourceUrlOf wEnv "m100" "1.1", "BAD"),
          (historyUrlOf wEnv "m100", "BADHTML")] "m100").cache =
        invalidateDocument [(sourceUrlOf wEnv "m100" "1.1", "BAD"),
            (historyUrlOf wEnv "m100", "BADHTML")]
          (historyUrlOf wEnv "m100") ∧
      (resolveAll wEnv true [(sourceUrlOf wEnv "m100" "1.1", "BAD"),
          (historyUrlOf wEnv "m100", "BADHTML")] "m100").yielded = [] ∧
      (resolveAll wEnv true [(sourceUrlOf wEnv "m100" "1.1", "BAD"),
          (historyUrlOf wEnv "m100", "BADHTML")] "m100").error? =
        some (.extraction "bad html") ∧
      retrieveDocument (invalidateDocument
         [(sourceUrlOf wEnv "m100" "1.1", "BAD"),
          (historyUrlOf wEnv "m100", "BADHTML")]
         (historyUrlOf wEnv "m100")) (historyUrlOf wEnv "m100") = none ∧
      (get_versions wEnv true (invalidateDocument
         [(sourceUrlOf wEnv "m100" "1.1", "BAD"),
          (historyUrlOf wEnv "m100", "BADHTML")]
         (historyUrlOf wEnv "m100")) "m100").reqs.count
        (historyUrlOf wEnv "m100") = 1)) :=
  ⟨⟨by decide, by decide,
    (invalidate_then_propagate_refetch wEnv
      [(sourceUrlOf wEnv "m100" "1.1", "BAD"),
       (historyUrlOf wEnv "m100", "BADHTML")] "m100" "1.1" "BAD" "BADHTML"
      (.extraction "bad doc") "bad html" []).1 (by decide) (by decide)⟩,
   ⟨by decide, by decide,
    (invalidate_then_propagate_refetch wEnv
      [(sourceUrlOf wEnv "m100" "1.1", "BAD"),
       (historyUrlOf wEnv "m100", "BADHTML")] "m100" "1.1" "BAD" "BADHTML"
      (.extraction "bad doc") "bad html" []).2 (by decide) (by decide)⟩⟩

/-- C5 counterexample: for the Module identifier `m100`, `get_versions`
does not key the history page by the live `getVersion` result: the host
answers `9.9` to `getVersion`, the history page keyed by `9.9` carries the
label `2.2`, yet the version listing is the one scraped from the page
keyed by the literal `latest` — so the claim's predicted listing `["2.2"]`
is not produced. -/
theorem versions_latest_key_counterexample :
    get_latest_version envC5 "m100" = "9.9" ∧
    envC5.parseVersionHistory (envC5.getBody (to_url envC5.host "m100"
      (get_latest_version envC5 "m100") ++ "/content_info")) = .ok ["2.2"] ∧
    (get_versions envC5 true [] "m100").val = .ok ["1.1"] ∧
    (get_versions envC5 true [] "m100").val ≠ .ok ["2.2"] :=
  ⟨by decide, by decide, by decide, by decide⟩

/-- C5 amended: `versions(id)` fetches the version-history page through the
cache at the url keyed by `(id, L)` where `L` is the literal `latest` for
identifiers starting with `m` and the live `getVersion` result otherwise;
it extracts the version labels and reverses the host's native descending
order to ascending. -/
theorem versions_listing_amended (env : Env) (en : Bool) (c : Cache)
    (mid : String) (hc : CacheConsistent env c) :
    (get_versions env en c mid).val =
      match env.parseVersionHistory (env.getBody (to_url env.host mid
          (if startsWithChar mid 'm' then "latest"
           else get_latest_version env mid) ++ "/content_info")) with
      | .error e => .error (.extraction e)
      | .ok vs => .ok vs.reverse :=
  get_versions_val_char env en c mid hc

/-- C5 amended, witnessed on the concrete host: the listing for `m100` is
the reversed scrape of the page keyed by the literal `latest`. -/
theorem versions_listing_amended_witness :
    CacheConsistent envC5 [] ∧
    (get_versions envC5 true [] "m100").val =
      match envC5.parseVersionHistory (envC5.getBody (to_url envC5.host "m100"
          (if startsWithChar "m100" 'm' then "latest"
           else get_latest_version envC5 "m100") ++ "/content_info")) with
      | .error e => .error (.extraction e)
      | .ok vs => .ok vs.reverse :=
  ⟨cacheConsistent_nil envC5,
    versions_listing_amended envC5 true [] "m100" (cacheConsistent_nil envC5)⟩

/-- C6: `_insert_module_file` computes the content hash first and
deduplicates by it: if a blob with the hash exists its identity is reused
and no blob row is inserted, otherwise a new blob row is appended; a fresh
association row is always appended.  Hence inserting two payloads with
identical bytes — even for different records — yields the same blob
identity referenced by two distinct associations. -/
theorem file_dedup_content_addressed (md5hex : String → String) (i1 i2 : Nat)
    (fn1 fn2 mt1 mt2 content : String) (db : DB) :
    (_insert_module_file md5hex i2 fn2 mt2 content
        (_insert_module_file md5hex i1 fn1 mt1 content db).2).1 =
      (_insert_module_file md5hex i1 fn1 mt1 content db).1 ∧
    (_insert_module_file md5hex i2 fn2 mt2 content
        (_insert_module_file md5hex i1 fn1 mt1 content db).2).2.files =
      (_insert_module_file md5hex i1 fn1 mt1 content db).2.files ∧
    (_insert_module_file md5hex i1 fn1 mt1 content db).2.module_files =
      db.module_files ++
        [⟨i1, (_insert_module_file md5hex i1 fn1 mt1 content db).1, fn1, mt1⟩] ∧
    (_insert_module_file md5hex i2 fn2 mt2 content
        (_insert_module_file md5hex i1 fn1 mt1 content db).2).2.module_files =
      db.module_files ++
        [⟨i1, (_insert_module_file md5hex i1 fn1 mt1 content db).1, fn1, mt1⟩,
         ⟨i2, (_insert_module_file md5hex i1 fn1 mt1 content db).1, fn2, mt2⟩] ∧
    ((∃ f ∈ db.files, f.md5 = md5hex content) →
      (_insert_module_file md5hex i1 fn1 mt1 content db).2.files = db.files) ∧
    ((¬ ∃ f ∈ db.files, f.md5 = md5hex content) →
      (_insert_module_file md5hex i1 fn1 mt1 content db).2.files =
        db.files ++ [⟨db.nextId, md5hex content, content⟩]) := by
  cases hf : db.files.find? (fun f => f.md5 == md5hex content) with
  | some f =>
    have hmem := List.mem_of_find?_eq_some hf
    have hbeq := List.find?_some hf
    simp only [beq_iff_eq] at hbeq
    refine ⟨?_, ?_, ?_, ?_, fun _ => ?_, fun hn => absurd ⟨f, hmem, hbeq⟩ hn⟩ <;>
      simp [_insert_module_file, hf]
  | none =>
    have hsecond : (db.files ++
          [(⟨db.nextId, md5hex content, content⟩ : FileRow)]).find?
        (fun f => f.md5 == md5hex content) =
        some ⟨db.nextId, md5hex content, content⟩ := by
      rw [find?_append_none _ hf]
      simp [List.find?]
    refine ⟨?_, ?_, ?_, ?_, fun hex => ?_, fun _ => ?_⟩
    · simp [_insert_module_file, hf, hsecond]
    · simp [_insert_module_file, hf, hsecond]
    · simp [_insert_module_file, hf]
    · simp [_insert_module_file, hf, hsecond]
    · obtain ⟨f, hmem, heq⟩ := hex
      have := List.find?_eq_none.mp hf f hmem
      simp [heq] at this
    · simp [_insert_module_file, hf]

/-- C6 witnessed: two inserts of the identical payload `docx` for records
7 and 8 against the empty file table insert one blob and share its
identity. -/
theorem file_dedup_content_addressed_witness :
    (¬ ∃ f ∈ dbW.files, f.md5 = "docx") ∧
    (_insert_module_file (fun s => s) 7 "index.cnxml" "text/xml" "docx"
        dbW).2.files = dbW.files ++ [⟨dbW.nextId, "docx", "docx"⟩] ∧
    (_insert_module_file (fun s => s) 8 "index.cnxml" "text/xml" "docx"
        (_insert_module_file (fun s => s) 7 "index.cnxml" "text/xml" "docx"
          dbW).2).1 =
      (_insert_module_file (fun s => s) 7 "index.cnxml" "text/xml" "docx"
        dbW).1 :=
  ⟨by decide,
    (file_dedup_content_addressed (fun s => s) 7 8 "index.cnxml" "index.cnxml"
      "text/xml" "text/xml" "docx" dbW).2.2.2.2.2 (by decide),
    (file_dedup_content_addressed (fun s => s) 7 8 "index.cnxml" "index.cnxml"
      "text/xml" "text/xml" "docx" dbW).1⟩

/-- C7: the resource phase for a persisted Module record lists the remote
resource filenames with the first `index.cnxml` removed, probes the store
per filename for an existing association with the record, skips every
filename whose probe succeeds, and fetches and inserts a fresh association
exactly for filenames the probe reported missing. -/
theorem module_resources_probe_insert_missing (env : Env) (ident : Nat)
    (mid version : String) (db : DB)
    (h : "index.cnxml" ∈ env.objectIds
      (to_url env.host mid version ++ "/objectIds")) :
    ∃ fns r,
      removeFirst (env.objectIds (to_url env.host mid version ++ "/objectIds"))
        "index.cnxml" = some fns ∧
      (∃ front back,
        env.objectIds (to_url env.host mid version ++ "/objectIds") =
          front ++ "index.cnxml" :: back ∧
        "index.cnxml" ∉ front ∧ fns = front ++ back) ∧
      moduleResourcePhase env ident mid version db = .ok r ∧
      (∀ fn, hasFileAssoc db ident fn = true → ("inserted", fn) ∉ r.reports) ∧
      (∀ fn ∈ fns, hasFileAssoc r.db ident fn = true) ∧
      (∃ t, r.db.module_files = db.module_files ++ t ∧
        ∀ a ∈ t, a.module_ident = ident ∧ a.filename ∈ fns ∧
          hasFileAssoc db ident a.filename = false) := by
  obtain ⟨front, back, fns, h1, h2, h3, h4⟩ := removeFirst_spec h
  refine ⟨fns, resourceLoop env ident (to_url env.host mid version) fns db,
    h1, ⟨front, back, h2, h3, h4⟩, ?_, ?_, ?_, ?_⟩
  · simp only [moduleResourcePhase, h1]
  · intro fn hfa hmem
    have hrep := resourceLoop_reports env ident (to_url env.host mid version)
      fns db fn hmem
    rw [hfa] at hrep
    simp at hrep
  · exact fun fn hfn => resourceLoop_covers env ident _ fns db fn hfn
  · exact resourceLoop_inserts env ident _ fns db

/-- C7 witnessed: for record 3 of module `m100`, `pic.png` is already
associated and is skipped, while the remaining missing resource is
inserted. -/
theorem module_resources_probe_insert_missing_witness :
    "index.cnxml" ∈ wEnv.objectIds
      (to_url wEnv.host "m100" "1.1" ++ "/objectIds") ∧
    (∃ fns r,
      removeFirst (wEnv.objectIds (to_url wEnv.host "m100" "1.1" ++ "/objectIds"))
        "index.cnxml" = some fns ∧
      (∃ front back,
        wEnv.objectIds (to_url wEnv.host "m100" "1.1" ++ "/objectIds") =
          front ++ "index.cnxml" :: back ∧
        "index.cnxml" ∉ front ∧ fns = front ++ back) ∧
      moduleResourcePhase wEnv 3 "m100" "1.1" dbC7 = .ok r ∧
      (∀ fn, hasFileAssoc dbC7 3 fn = true → ("inserted", fn) ∉ r.reports) ∧
      (∀ fn ∈ fns, hasFileAssoc r.db 3 fn = true) ∧
      (∃ t, r.db.module_files = dbC7.module_files ++ t ∧
        ∀ a ∈ t, a.module_ident = 3 ∧ a.filename ∈ fns ∧
          hasFileAssoc dbC7 3 a.filename = false)) :=
  ⟨by decide,
    module_resources_probe_insert_missing wEnv 3 "m100" "1.1" dbC7 (by decide)⟩

/-- C8: for a persisted Collection record the engine recurses into the
child identifiers extracted from the stored primary document, processing
the children in document order and forwarding every ident a child emits;
the parent's ident is yielded before the children's.  On the concrete
scenario — collection `c1` at version `1.5` whose stored child list is
`["m100", "m101"]` — the engine emits the idents in the order
`[c1_ident, m100_ident, m101_ident]` = `[3, 6, 9]`. -/
theorem collection_recursion_emission_order :
    (∀ (env : Env) (en : Bool) (fuel : Nat) (mid : String) (ident : Nat)
        (c : Cache) (db : DB) (cs : List String),
      _get_module_contents env ident db = .ok cs →
      popGo env en (fuel + 1) (.recurse mid ident COLLECTION) c db =
        popGo env en fuel (.children cs) c db) ∧
    (∀ (env : Env) (en : Bool) (fuel : Nat) (m : String) (ms : List String)
        (c : Cache) (db : DB),
      (popGo env en fuel (.content m) c db).error? = none →
      (popGo env en (fuel + 1) (.children (m :: ms)) c db).idents =
        (popGo env en fuel (.content m) c db).idents ++
          (popGo env en fuel (.children ms)
            (popGo env en fuel (.content m) c db).cache
            (popGo env en fuel (.content m) c db).db).idents) ∧
    (∀ (env : Env) (en : Bool) (fuel : Nat) (mid v : String)
        (rest : List String) (c : Cache) (db : DB) (p : ModuleData × String)
        (r : (Nat × String) × DB × String),
      (resolveStep env en c mid v).val = .ok p →
      pairStep env p.1 p.2 db = .ok r →
      ∃ l, (popGo env en (fuel + 1) (.versions mid (v :: rest)) c db).idents =
        r.1.1 :: l) ∧
    (populate env8 true 12 "c1" [] dbW).error? = none ∧
    (populate env8 true 12 "c1" [] dbW).idents = [3, 6, 9] ∧
    (populate env8 true 12 "c1" [] dbW).reports =
      [("inserted", 3), ("inserted", 6), ("inserted", 9)] ∧
    _get_module_contents env8 3 (populate env8 true 12 "c1" [] dbW).db =
      .ok ["m100", "m101"] := by
  refine ⟨?_, ?_, ?_, by decide, by decide, by decide, by decide⟩
  · intro env en fuel mid ident c db cs hcs
    simp only [popGo, hcs]
    simp
  · intro env en fuel m ms c db herr
    simp only [popGo, herr]
  · intro env en fuel mid v rest c db p r hs hp
    simp only [popGo, hs, hp]
    cases hsube : (popGo env en fuel (.recurse mid r.1.1 r.1.2)
        (resolveStep env en c mid v).cache r.2.1).error? with
    | some e =>
      simp only [hsube]
      exact ⟨_, rfl⟩
    | none =>
      simp only [hsube]
      exact ⟨_, rfl⟩

/-- C8 witnessed: the general parts applied on the concrete scenario — the
recursion for persisted collection ident 3 of `c1` is exactly the children
run on `["m100", "m101"]`, and a children step forwards the first child's
emissions before the remaining ones. -/
theorem collection_recursion_emission_order_witness :
    _get_module_contents env8 3
      (populate env8 true 12 "c1" [] dbW).db = .ok ["m100", "m101"] ∧
    popGo env8 true 9 (.recurse "c1" 3 COLLECTION) []
        (populate env8 true 12 "c1" [] dbW).db =
      popGo env8 true 8 (.children ["m100", "m101"]) []
        (populate env8 true 12 "c1" [] dbW).db ∧
    (popGo env8 true 8 (.content "m100") [] dbW).error? = none ∧
    (popGo env8 true 9 (.children ["m100", "m101"]) [] dbW).idents =
      (popGo env8 true 8 (.content "m100") [] dbW).idents ++
        (popGo env8 true 8 (.children ["m101"])
          (popGo env8 true 8 (.content "m100") [] dbW).cache
          (popGo env8 true 8 (.content "m100") [] dbW).db).idents :=
  ⟨by decide,
    collection_recursion_emission_order.1 env8 true 8 "c1" 3 []
      (populate env8 true 12 "c1" [] dbW).db ["m100", "m101"] (by decide),
    by decide,
    collection_recursion_emission_order.2.1 env8 true 8 "m100" ["m101"] []
      dbW (by decide)⟩

/-- C1: idempotence of the population engine.  Under a host-consistent
cache and a well-formed store, if one run of the engine on a content
identifier succeeds, then a second run on the resulting cache and store
performs no store write at all — no abstract, record, file blob, file
association, subject or keyword insert, for any pair — finds every
`(moduleid, version)` pair persisted, reports `exists` for every yielded
ident, emits the same idents, and succeeds. -/
theorem population_engine_idempotent (env : Env) (en : Bool) (fuel : Nat)
    (mid : String) (c : Cache) (db : DB)
    (hc : CacheConsistent env c) (hwf : DBWF db)
    (h1 : (populate env en fuel mid c db).error? = none) :
    (populate env en fuel mid (populate env en fuel mid c db).cache
        (populate env en fuel mid c db).db).db =
      (populate env en fuel mid c db).db ∧
    (populate env en fuel mid (populate env en fuel mid c db).cache
        (populate env en fuel mid c db).db).error? = none ∧
    (populate env en fuel mid (populate env en fuel mid c db).cache
        (populate env en fuel mid c db).db).idents =
      (populate env en fuel mid c db).idents ∧
    (populate env en fuel mid (populate env en fuel mid c db).cache
        (populate env en fuel mid c db).db).reports =
      (populate env en fuel mid c db).idents.map
        (fun i => (("exists" : String), i)) ∧
    (populate env en fuel mid (populate env en fuel mid c db).cache
        (populate env en fuel mid c db).db).resourceReports = [] := by
  obtain ⟨a1, a2, a3, a4, a5⟩ := popGo_rerun env en fuel (.content mid) c db
    (populate env en fuel mid c db).cache (populate env en fuel mid c db).db
    hc (popGo_cache_consistent env en fuel (.content mid) c db hc) hwf h1
    (dbExtends_refl (populate env en fuel mid c db).db)
  exact ⟨a5, a4, a1, a2, a3⟩

/-- C1 witnessed on the concrete module `m100` (one version, two
resources): the first run inserts, the second run changes nothing, emits
the same ident and reports `exists`. -/
theorem population_engine_idempotent_witness :
    CacheConsistent wEnv [] ∧ DBWF dbW ∧
    (populate wEnv true 4 "m100" [] dbW).error? = none ∧
    ((populate wEnv true 4 "m100" (populate wEnv true 4 "m100" [] dbW).cache
        (populate wEnv true 4 "m100" [] dbW).db).db =
      (populate wEnv true 4 "m100" [] dbW).db ∧
     (populate wEnv true 4 "m100" (populate wEnv true 4 "m100" [] dbW).cache
        (populate wEnv true 4 "m100" [] dbW).db).error? = none ∧
     (populate wEnv true 4 "m100" (populate wEnv true 4 "m100" [] dbW).cache
        (populate wEnv true 4 "m100" [] dbW).db).idents =
      (populate wEnv true 4 "m100" [] dbW).idents ∧
     (populate wEnv true 4 "m100" (populate wEnv true 4 "m100" [] dbW).cache
        (populate wEnv true 4 "m100" [] dbW).db).reports =
      (populate wEnv true 4 "m100" [] dbW).idents.map
        (fun i => (("exists" : String), i)) ∧
     (populate wEnv true 4 "m100" (populate wEnv true 4 "m100" [] dbW).cache
        (populate wEnv true 4 "m100" [] dbW).db).resourceReports = []) :=
  ⟨cacheConsistent_nil wEnv, fun r hr => absurd hr (List.not_mem_nil r),
    by decide,
    population_engine_idempotent wEnv true 4 "m100" [] dbW
      (cacheConsistent_nil wEnv)
      (fun r hr => absurd hr (List.not_mem_nil r)) (by decide)⟩
